import Mathlib

/-!
# Software-emulation shim (`xclswemuhal2::SwEmuShim`)

A shallow embedding of `core/edge/sw_emu/generic_pcie_hal2/shim.h`.

* Inline bodies of the header (`hwcontext`, `set_messagesize`, `get_messagesize`,
  `isImported`) are translated statement by statement.
* Member functions that the header only declares are either taken as parameters
  (`ShimOps`, when a header-defined function merely calls them) or modelled from the
  specification; the latter carry a doc comment starting `Modelled from the spec:`.
* Machine integers are natural numbers; `unsigned int` stores are reduced modulo `2 ^ 32`.
-/

namespace xclswemuhal2

/-! ## Definitions -/

/-- Access mode of a hardware context, `xrt::hw_context::access_mode`. -/
inductive access_mode where
  | exclusive
  | shared
  deriving DecidableEq, Repr

/-- Exceptions that leave a hardware-context operation. `bad_alloc` is the one thrown by the
header itself; the others are the failures the specification names for the shim operations. -/
inductive Exn where
  | bad_alloc
  | NotFound
  | Busy
  | InvalidCu
  | InvalidOffset
  | InvalidHandle
  deriving DecidableEq, Repr

/-- Declarations used by the header whose definitions live in other headers (`xrt.h`,
`hwctx_handle.h`): the null buffer handle and the two handle conversions. They are parameters
of the embedding. -/
structure XrtDecls where
  XRT_NULL_BO : Nat
  to_xrt_buffer_handle : Nat → Nat
  to_xclBufferHandle : Nat → Nat

/-- Class `SwEmuShim::hwcontext`: the four data members, in declaration order. `m_shim` is the
address of the owning shim. -/
structure hwcontext where
  m_shim : Nat
  m_uuid : Nat
  m_slotidx : Nat
  m_mode : access_mode
  deriving DecidableEq, Repr

/-- Constructor `hwcontext(shim, slotidx, uuid, mode)`: the member initialiser list. -/
def hwcontext.ctor (shim : Nat) (slotidx : Nat) (uuid : Nat) (mode : access_mode) : hwcontext :=
  { m_shim := shim, m_uuid := uuid, m_slotidx := slotidx, m_mode := mode }

/-- Body of `hwcontext::get_slotidx`. -/
def hwcontext.get_slotidx (self : hwcontext) : Nat := self.m_slotidx

/-- Body of `hwcontext::get_mode`. -/
def hwcontext.get_mode (self : hwcontext) : access_mode := self.m_mode

/-- Body of `hwcontext::get_xclbin_uuid`. -/
def hwcontext.get_xclbin_uuid (self : hwcontext) : Nat := self.m_uuid

/-- One call made on the shim object through `m_shim`, with its actual arguments. -/
inductive ShimCall where
  | xclAllocBO (size flags : Nat)
  | xclAllocUserPtrBO (userptr size flags : Nat)
  | xclExecBuf (cmdBO : Nat)
  | open_cu_context (hwctx_hdl : Nat) (cuname : String)
  | close_cu_context (hwctx_hdl : Nat) (cuidx : Nat)
  deriving DecidableEq, Repr

/-- The shim member functions that `hwcontext` calls. The header only declares them, so they
are parameters: each maps its arguments and the shim state to a return value and a new shim
state. The two allocation functions and `xclExecBuf` are taken to return a value of their
declared type; the two context functions return or throw, and receive the
`const hwctx_handle*` as an address together with a read-only view of the object behind it. -/
structure ShimOps (σ : Type) where
  xclAllocBO : Nat → Nat → σ → Nat × σ
  xclAllocUserPtrBO : Nat → Nat → Nat → σ → Nat × σ
  xclExecBuf : Nat → σ → Int × σ
  open_cu_context : Nat → hwcontext → String → σ → Except Exn Nat × σ
  close_cu_context : Nat → hwcontext → Nat → σ → Except Exn Unit × σ

/-- The shim behind `m_shim` together with the log of calls made on it. -/
structure World (σ : Type) where
  shim : σ
  calls : List ShimCall

/-- What a `hwcontext` member function leaves behind: the context object, the shim with its call
log, and the value returned or the exception thrown. -/
structure Outcome (σ α : Type) where
  self : hwcontext
  world : World σ
  result : Except Exn α

/-- Body of `hwcontext::create_hw_queue`: returns `nullptr`. -/
def hwcontext.create_hw_queue {σ : Type} (self : hwcontext) (w : World σ) :
    Outcome σ (Option Nat) :=
  { self := self, world := w, result := Except.ok none }

/-- Body of `hwcontext::alloc_bo(void* userptr, size_t size, unsigned int flags)`. -/
def hwcontext.alloc_bo_userptr {σ : Type} (D : XrtDecls) (ops : ShimOps σ) (self : hwcontext)
    (userptr size flags : Nat) (w : World σ) : Outcome σ Nat :=
  let r := ops.xclAllocUserPtrBO userptr size flags w.shim
  let w1 : World σ :=
    { shim := r.2, calls := w.calls ++ [ShimCall.xclAllocUserPtrBO userptr size flags] }
  if r.1 = D.XRT_NULL_BO then
    { self := self, world := w1, result := Except.error Exn.bad_alloc }
  else
    { self := self, world := w1, result := Except.ok (D.to_xrt_buffer_handle r.1) }

/-- Body of `hwcontext::alloc_bo(size_t size, unsigned int flags)`. -/
def hwcontext.alloc_bo {σ : Type} (D : XrtDecls) (ops : ShimOps σ) (self : hwcontext)
    (size flags : Nat) (w : World σ) : Outcome σ Nat :=
  let r := ops.xclAllocBO size flags w.shim
  let w1 : World σ := { shim := r.2, calls := w.calls ++ [ShimCall.xclAllocBO size flags] }
  if r.1 = D.XRT_NULL_BO then
    { self := self, world := w1, result := Except.error Exn.bad_alloc }
  else
    { self := self, world := w1, result := Except.ok (D.to_xrt_buffer_handle r.1) }

/-- Body of `hwcontext::open_cu_context(cuname)`: forwards to the shim with `this`. -/
def hwcontext.open_cu_context {σ : Type} (ops : ShimOps σ) (this : Nat) (self : hwcontext)
    (cuname : String) (w : World σ) : Outcome σ Nat :=
  let r := ops.open_cu_context this self cuname w.shim
  { self := self
    world := { shim := r.2, calls := w.calls ++ [ShimCall.open_cu_context this cuname] }
    result := r.1 }

/-- Body of `hwcontext::close_cu_context(cuidx)`: forwards to the shim with `this`. -/
def hwcontext.close_cu_context {σ : Type} (ops : ShimOps σ) (this : Nat) (self : hwcontext)
    (cuidx : Nat) (w : World σ) : Outcome σ Unit :=
  let r := ops.close_cu_context this self cuidx w.shim
  { self := self
    world := { shim := r.2, calls := w.calls ++ [ShimCall.close_cu_context this cuidx] }
    result := r.1 }

/-- Body of `hwcontext::exec_buf(cmd)`: calls the shim's `xclExecBuf` as an expression
statement, so the `int` it returns is dropped, and returns `void`. -/
def hwcontext.exec_buf {σ : Type} (D : XrtDecls) (ops : ShimOps σ) (self : hwcontext)
    (cmd : Nat) (w : World σ) : Outcome σ Unit :=
  let r := ops.xclExecBuf (D.to_xclBufferHandle cmd) w.shim
  { self := self
    world := { shim := r.2
               calls := w.calls ++ [ShimCall.xclExecBuf (D.to_xclBufferHandle cmd)] }
    result := Except.ok () }

/-- Destruction of a `hwcontext`. The class declares no destructor and its members are a raw
pointer, a uuid, a slot id and an enumerator, so the compiler-generated destructor makes no call
on the shim. -/
def hwcontext.dtor {σ : Type} (_self : hwcontext) (w : World σ) : World σ := w

/-- The context-free allocation path: the caller invokes the shim's `xclAllocBO` itself. -/
def context_free_alloc {σ : Type} (ops : ShimOps σ) (size flags : Nat) (w : World σ) :
    Nat × World σ :=
  let r := ops.xclAllocBO size flags w.shim
  (r.1, { shim := r.2, calls := w.calls ++ [ShimCall.xclAllocBO size flags] })

/-- The context-free user-pointer allocation path: a direct `xclAllocUserPtrBO` call. -/
def context_free_alloc_userptr {σ : Type} (ops : ShimOps σ) (userptr size flags : Nat)
    (w : World σ) : Nat × World σ :=
  let r := ops.xclAllocUserPtrBO userptr size flags w.shim
  (r.1, { shim := r.2, calls := w.calls ++ [ShimCall.xclAllocUserPtrBO userptr size flags] })

/-! ### Memory manager (one per memory bank) -/

/-- A range of offsets `[start, start + size)` of the simulated address space. -/
structure Range where
  start : Nat
  size : Nat
  deriving DecidableEq, Repr

/-- Whether offset `a` lies in the range. -/
def Range.contains (r : Range) (a : Nat) : Bool :=
  decide (r.start ≤ a) && decide (a < r.start + r.size)

/-- Two ranges overlap when some offset lies in both: the larger start is below the smaller
end. -/
def Range.overlaps (r s : Range) : Prop :=
  max r.start s.start < min (r.start + r.size) (s.start + s.size)

instance (r s : Range) : Decidable (Range.overlaps r s) :=
  inferInstanceAs (Decidable (max r.start s.start < min (r.start + r.size) (s.start + s.size)))

/-- Sum of the sizes of the ranges of a list. -/
def totalSize (l : List Range) : Nat := (l.map Range.size).sum

/-- Number of ranges of the list that contain offset `a`. -/
def cover (l : List Range) (a : Nat) : Nat := l.countP (fun r => r.contains a)

/-- Modelled from the spec: `xclemulation::MemoryManager` (memorymanager.h is not part of the
sources). A memory bank has a base, a size and free-range tracking; the live allocated ranges
are kept next to the free ones. -/
structure MemoryManager where
  base : Nat
  size : Nat
  freeList : List Range
  busyList : List Range
  deriving DecidableEq, Repr

/-- Modelled from the spec: a fresh bank, whose whole range is free and which has no live
allocation (the `MemoryManager` constructor is not part of the sources). -/
def MemoryManager.init (base size : Nat) : MemoryManager :=
  { base := base, size := size, freeList := [{ start := base, size := size }], busyList := [] }

/-- Modelled from the spec: the choice made by `allocate`, "the smallest sufficient free
range" of the bank; among equally small ranges the earliest in the list wins. -/
def bestFit (sz : Nat) : List Range → Option Range
  | [] => none
  | r :: rs =>
    match bestFit sz rs with
    | none => if sz ≤ r.size then some r else none
    | some b => if sz ≤ r.size ∧ r.size ≤ b.size then some r else some b

/-- Modelled from the spec: `allocate(size) → offset` of the Memory Manager. The request is
carved from the front of the chosen free range, whose remainder stays free; without a
sufficient free range the call fails (`none`, the spec's `OutOfMemory`) and changes nothing. -/
def MemoryManager.allocate (m : MemoryManager) (sz : Nat) : Option Nat × MemoryManager :=
  match bestFit sz m.freeList with
  | none => (none, m)
  | some r =>
    let rest := m.freeList.erase r
    let freeList :=
      if sz < r.size then { start := r.start + sz, size := r.size - sz } :: rest else rest
    (some r.start,
      { m with freeList := freeList, busyList := { start := r.start, size := sz } :: m.busyList })

/-- Modelled from the spec: "coalesces adjacent freed ranges", first half. A free range ending
where `r` starts is taken out of the free list and joined to the front of `r`. -/
def coalesceBefore (r : Range) (fl : List Range) : Range × List Range :=
  match fl.find? (fun x => decide (x.start + x.size = r.start)) with
  | some x => ({ start := x.start, size := x.size + r.size }, fl.erase x)
  | none => (r, fl)

/-- Modelled from the spec: "coalesces adjacent freed ranges", second half. A free range
starting where `r` ends is taken out of the free list and joined to the back of `r`. -/
def coalesceAfter (r : Range) (fl : List Range) : Range × List Range :=
  match fl.find? (fun y => decide (y.start = r.start + r.size)) with
  | some y => ({ start := r.start, size := r.size + y.size }, fl.erase y)
  | none => (r, fl)

/-- Modelled from the spec: `release(offset)` of the Memory Manager. The live range starting at
`offset` leaves the live ranges and returns to the free ranges, coalesced with its free
neighbours; an offset at which no live range starts changes nothing. -/
def MemoryManager.release (m : MemoryManager) (offset : Nat) : MemoryManager :=
  match m.busyList.find? (fun r => decide (r.start = offset)) with
  | none => m
  | some r =>
    let p := coalesceBefore r m.freeList
    let q := coalesceAfter p.1 p.2
    { m with freeList := q.1 :: q.2, busyList := m.busyList.erase r }

/-- Modelled from the spec: "multiple banks are tried in a fixed priority order (default bank
first)": the first bank that can satisfy the request serves it. -/
def allocFirst (sz : Nat) : List MemoryManager → Option Nat × List MemoryManager
  | [] => (none, [])
  | m :: ms =>
    match (m.allocate sz).1 with
    | some off => (some off, (m.allocate sz).2 :: ms)
    | none => ((allocFirst sz ms).1, m :: (allocFirst sz ms).2)

/-- Modelled from the spec: allocation from the bank the caller names, bank `i` of the list. -/
def allocAt (sz : Nat) : Nat → List MemoryManager → Option Nat × List MemoryManager
  | _, [] => (none, [])
  | 0, m :: ms => ((m.allocate sz).1, (m.allocate sz).2 :: ms)
  | i + 1, m :: ms => ((allocAt sz i ms).1, m :: (allocAt sz i ms).2)

/-! ### The shim object -/

/-- Modelled from the spec: a buffer-object record (`xclemulation::drm_xocl_bo`, declared in a
header that is not part of the sources): size, allocation flags, backing location (device
offset, or host pointer for a user-pointer buffer), and for a command buffer the compute-unit
index its command names. -/
structure drm_xocl_bo where
  size : Nat
  flags : Nat
  base : Nat
  userptr : Bool
  cu_index : Nat
  deriving DecidableEq, Repr

/-- One exchange on the transport channel (call packet; the peer answers it). -/
inductive RpcCall where
  | execBuf (cmdBO : Nat)
  | regRead (cu_index offset : Nat)
  | regWrite (cu_index offset data : Nat)
  deriving DecidableEq, Repr

/-- Class `SwEmuShim`: the data members of the header that the verified operations touch,
under the header's names. `m_xclbin` is the loaded image, kept as its IP layout (the
compute-unit names in index order); `sock` is the transport connection, kept as the list of
exchanges performed on it. `cu_holds` is modelled from the spec: the compute-unit contexts
currently open, as pairs of the holding hardware context's handle and the unit's index. -/
structure SwEmuShim where
  message_size : Nat
  mDDRMemoryManager : List MemoryManager
  mXoclObjMap : List (Nat × drm_xocl_bo)
  mBufferCount : Nat
  mReqList : List (Nat × Nat × List (Nat × Nat))
  mReqCounter : Nat
  mCURangeMap : List (String × Nat)
  m_xclbin : List String
  mImportedBOs : List Nat
  sock : List RpcCall
  cu_holds : List (Nat × Nat)
  deriving DecidableEq, Repr

/-- Body of `SwEmuShim::set_messagesize`: the `unsigned int` argument is stored. -/
def SwEmuShim.set_messagesize (s : SwEmuShim) (messageSize : Nat) : SwEmuShim :=
  { s with message_size := messageSize % 2 ^ 32 }

/-- Body of `SwEmuShim::get_messagesize`. -/
def SwEmuShim.get_messagesize (s : SwEmuShim) : Nat := s.message_size

/-- Body of `SwEmuShim::isImported`: `mImportedBOs.find(_bo) != mImportedBOs.end()`. The query
reads the set only, so the shim is returned as it was. -/
def SwEmuShim.isImported (s : SwEmuShim) (_bo : Nat) : Bool × SwEmuShim :=
  if _bo ∈ s.mImportedBOs then (true, s) else (false, s)

/-- Modelled from the spec: `initMemoryManager(DDRBankList)`, declared in the header only. One
memory manager per bank, the banks laid out one after the other from offset `base`; a bank is
given by its size. -/
def initMemoryManager : Nat → List Nat → List MemoryManager
  | _, [] => []
  | base, sz :: rest => MemoryManager.init base sz :: initMemoryManager (base + sz) rest

/-- Modelled from the spec: `xclAllocDeviceBuffer(size)`, declared in the header only. The
banks are tried in their fixed order; `none` is the failure to allocate. -/
def SwEmuShim.xclAllocDeviceBuffer (s : SwEmuShim) (size : Nat) : Option Nat × SwEmuShim :=
  ((allocFirst size s.mDDRMemoryManager).1,
    { s with mDDRMemoryManager := (allocFirst size s.mDDRMemoryManager).2 })

/-- Modelled from the spec: `xclAllocDeviceBuffer2(size, domain, flags, p2pBuffer, sFileName)`,
declared in the header only. The caller names the bank, `flags` being its index. -/
def SwEmuShim.xclAllocDeviceBuffer2 (s : SwEmuShim) (size flags : Nat) :
    Option Nat × SwEmuShim :=
  ((allocAt size flags s.mDDRMemoryManager).1,
    { s with mDDRMemoryManager := (allocAt size flags s.mDDRMemoryManager).2 })

/-- Modelled from the spec: `xclFreeDeviceBuffer(buf)`, declared in the header only. The offset
is released in the memory managers. -/
def SwEmuShim.xclFreeDeviceBuffer (s : SwEmuShim) (buf : Nat) : SwEmuShim :=
  { s with mDDRMemoryManager := s.mDDRMemoryManager.map (fun m => m.release buf) }

/-- An allocate or free request on the device memory. -/
inductive MemOp where
  | alloc (size : Nat)
  | alloc2 (size flags : Nat)
  | free (buf : Nat)
  deriving DecidableEq, Repr

/-- One request applied to the shim. -/
def SwEmuShim.memStep (s : SwEmuShim) : MemOp → SwEmuShim
  | MemOp.alloc size => (s.xclAllocDeviceBuffer size).2
  | MemOp.alloc2 size flags => (s.xclAllocDeviceBuffer2 size flags).2
  | MemOp.free buf => s.xclFreeDeviceBuffer buf

/-- A sequence of requests applied to the shim, first to last. -/
def SwEmuShim.memRun (s : SwEmuShim) (ops : List MemOp) : SwEmuShim :=
  ops.foldl SwEmuShim.memStep s

/-- Modelled from the spec: the shim as its constructor leaves it for the given bank sizes
(the constructor is declared in the header only): memory managers initialised, nothing
allocated, imported, requested, loaded or open. -/
def SwEmuShim.ctor (messageSize : Nat) (DDRBankList : List Nat) : SwEmuShim :=
  { message_size := messageSize % 2 ^ 32
    mDDRMemoryManager := initMemoryManager 0 DDRBankList
    mXoclObjMap := []
    mBufferCount := 0
    mReqList := []
    mReqCounter := 0
    mCURangeMap := []
    m_xclbin := []
    mImportedBOs := []
    sock := []
    cu_holds := [] }

/-- Modelled from the spec: `xclAllocBO(size, flags)`, the Buffer Registry's `create`, declared
in the header only. A range is requested from the Memory Manager; without one the call fails
with the null handle; otherwise a handle is taken from `mBufferCount` and the record stored. -/
def SwEmuShim.xclAllocBO (D : XrtDecls) (s : SwEmuShim) (size flags : Nat) : Nat × SwEmuShim :=
  match (s.xclAllocDeviceBuffer size).1 with
  | none => (D.XRT_NULL_BO, s)
  | some off =>
    let s1 := (s.xclAllocDeviceBuffer size).2
    (s1.mBufferCount,
      { s1 with
        mBufferCount := (s1.mBufferCount + 1) % 2 ^ 32
        mXoclObjMap :=
          (s1.mBufferCount,
            { size := size, flags := flags, base := off, userptr := false, cu_index := 0 })
            :: s1.mXoclObjMap })

/-- Modelled from the spec: `xclAllocUserPtrBO(userptr, size, flags)`, declared in the header
only. The caller-supplied host pointer is accepted as the backing location, a handle is taken
from `mBufferCount` and the record stored. -/
def SwEmuShim.xclAllocUserPtrBO (s : SwEmuShim) (userptr size flags : Nat) : Nat × SwEmuShim :=
  (s.mBufferCount,
    { s with
      mBufferCount := (s.mBufferCount + 1) % 2 ^ 32
      mXoclObjMap :=
        (s.mBufferCount,
          { size := size, flags := flags, base := userptr, userptr := true, cu_index := 0 })
          :: s.mXoclObjMap })

/-- Modelled from the spec: `xclIPName2Index(name)`, declared in the header only ("get CU index
from IP_LAYOUT section for corresponding kernel name"); `none` when the layout has no such
name. -/
def SwEmuShim.xclIPName2Index (s : SwEmuShim) (name : String) : Option Nat :=
  if name ∈ s.m_xclbin then some (s.m_xclbin.indexOf name) else none

/-- Modelled from the spec: `isValidCu(cu_index)`, declared in the header only: the index is
one of the loaded image's layout. -/
def SwEmuShim.isValidCu (s : SwEmuShim) (cu_index : Nat) : Bool :=
  decide (cu_index < s.m_xclbin.length)

/-- Modelled from the spec: `getCuAddRange(cu_index)`, declared in the header only ("get
address range for a particular cu from mCURangeMap"). A unit without an entry has the empty
range. -/
def SwEmuShim.getCuAddRange (s : SwEmuShim) (cu_index : Nat) : Nat :=
  match s.mCURangeMap.find? (fun e => decide (s.xclIPName2Index e.1 = some cu_index)) with
  | some e => e.2
  | none => 0

/-- Modelled from the spec: `isValidOffset(offset, cuAddRange)`, declared in the header only
("check if the offset is valid and within the cuAddRange limit"). -/
def SwEmuShim.isValidOffset (offset cuAddRange : Nat) : Bool :=
  decide (offset < cuAddRange)

/-- Modelled from the spec: `xclRegRW(rd, cu_index, offset, datap)`, declared in the header
only. An offset outside the unit's address range fails with `InvalidOffset` before the
transport is reached; otherwise one read or write exchange is performed, a read returning the
peer's answer and a write the datum written. `peer` is the emulation process. -/
def SwEmuShim.xclRegRW (peer : RpcCall → Nat) (s : SwEmuShim) (rd : Bool)
    (cu_index offset data : Nat) : Except Exn Nat × SwEmuShim :=
  if SwEmuShim.isValidOffset offset (s.getCuAddRange cu_index) then
    if rd then
      (Except.ok (peer (RpcCall.regRead cu_index offset)),
        { s with sock := s.sock ++ [RpcCall.regRead cu_index offset] })
    else
      (Except.ok data, { s with sock := s.sock ++ [RpcCall.regWrite cu_index offset data] })
  else
    (Except.error Exn.InvalidOffset, s)

/-- Modelled from the spec: `xclRegRead(cu_index, offset, datap)`, through `xclRegRW`. -/
def SwEmuShim.xclRegRead (peer : RpcCall → Nat) (s : SwEmuShim) (cu_index offset : Nat) :
    Except Exn Nat × SwEmuShim :=
  SwEmuShim.xclRegRW peer s true cu_index offset 0

/-- Modelled from the spec: `xclRegWrite(cu_index, offset, data)`, through `xclRegRW`. -/
def SwEmuShim.xclRegWrite (peer : RpcCall → Nat) (s : SwEmuShim) (cu_index offset data : Nat) :
    Except Exn Nat × SwEmuShim :=
  SwEmuShim.xclRegRW peer s false cu_index offset data

/-- Modelled from the spec: the Command Scheduler's `submit(cuIndex, commandBuffer)`. The
compute-unit index is validated against the loaded image's layout, failing with `InvalidCu`;
only then is the command forwarded on the transport. -/
def SwEmuShim.submit (s : SwEmuShim) (cuIndex cmdBO : Nat) : Except Exn Unit × SwEmuShim :=
  if s.isValidCu cuIndex then
    (Except.ok (), { s with sock := s.sock ++ [RpcCall.execBuf cmdBO] })
  else
    (Except.error Exn.InvalidCu, s)

/-- The `int` a shim function reports: `0` on success and `-1` on error, the convention the
header documents for its `int` graph functions. -/
def status {α : Type} : Except Exn α → Int
  | Except.ok _ => 0
  | Except.error _ => -1

/-- Modelled from the spec: `xclExecBuf(cmdBO)`, declared in the header only. The command
buffer is looked up in the buffer registry and its command submitted to the compute unit it
names. -/
def SwEmuShim.xclExecBuf (s : SwEmuShim) (cmdBO : Nat) : Except Exn Unit × SwEmuShim :=
  match s.mXoclObjMap.lookup cmdBO with
  | none => (Except.error Exn.InvalidHandle, s)
  | some bo => s.submit bo.cu_index cmdBO

/-- Modelled from the spec: `SwEmuShim::open_cu_context(hwctx_hdl, cuname)`, declared in the
header only. The name is resolved against the loaded image's layout (`NotFound` if absent);
the call fails with `Busy` if the context's mode is exclusive and another context holds the
unit; otherwise the context holds the unit. -/
def SwEmuShim.open_cu_context (s : SwEmuShim) (hwctx_hdl : Nat) (hwctx : hwcontext)
    (cuname : String) : Except Exn Nat × SwEmuShim :=
  match s.xclIPName2Index cuname with
  | none => (Except.error Exn.NotFound, s)
  | some cuidx =>
    if hwctx.get_mode = access_mode.exclusive ∧
        (s.cu_holds.any (fun h => decide (h.2 = cuidx) && decide (h.1 ≠ hwctx_hdl))) = true then
      (Except.error Exn.Busy, s)
    else
      (Except.ok cuidx, { s with cu_holds := (hwctx_hdl, cuidx) :: s.cu_holds })

/-- Modelled from the spec: `SwEmuShim::close_cu_context(hwctx_hdl, cuidx)`, declared in the
header only: "releases the hold" of that context on that unit. -/
def SwEmuShim.close_cu_context (s : SwEmuShim) (hwctx_hdl : Nat) (_hwctx : hwcontext)
    (cuidx : Nat) : Except Exn Unit × SwEmuShim :=
  (Except.ok (),
    { s with cu_holds := s.cu_holds.filter (fun h => decide (h ≠ (hwctx_hdl, cuidx))) })

/-- The shim operations of `SwEmuShim` in the shape `hwcontext` calls them. -/
def swEmuOps (D : XrtDecls) : ShimOps SwEmuShim where
  xclAllocBO := fun size flags s => SwEmuShim.xclAllocBO D s size flags
  xclAllocUserPtrBO := fun userptr size flags s => s.xclAllocUserPtrBO userptr size flags
  xclExecBuf := fun cmdBO s => (status (s.xclExecBuf cmdBO).1, (s.xclExecBuf cmdBO).2)
  open_cu_context := fun hdl ctx cuname s => s.open_cu_context hdl ctx cuname
  close_cu_context := fun hdl ctx cuidx s => s.close_cu_context hdl ctx cuidx

/-- A choice of the missing declarations, used in the examples: the null handle is
`0xffffffff` and the handle conversions keep the value. -/
def exampleDecls : XrtDecls :=
  { XRT_NULL_BO := 0xffffffff, to_xrt_buffer_handle := fun h => h, to_xclBufferHandle := fun h => h }

/-- The state a memory manager is kept in: the free and the live ranges add up to the bank
size, and no offset lies in more than one of them. -/
def MemoryManager.Inv (m : MemoryManager) : Prop :=
  totalSize m.freeList + totalSize m.busyList = m.size ∧
  ∀ a, cover m.freeList a + cover m.busyList a ≤ 1

/-- A call of one of the `hwcontext` member functions other than the three getters. -/
inductive HwCall where
  | alloc_bo (size flags : Nat)
  | alloc_bo_userptr (userptr size flags : Nat)
  | open_cu_context (this : Nat) (cuname : String)
  | close_cu_context (this : Nat) (cuidx : Nat)
  | exec_buf (cmd : Nat)
  | create_hw_queue
  deriving DecidableEq, Repr

/-- The context object and the shim after one member-function call. -/
def hwcontext.call {σ : Type} (D : XrtDecls) (ops : ShimOps σ) (self : hwcontext) (w : World σ) :
    HwCall → hwcontext × World σ
  | HwCall.alloc_bo size flags =>
    ((self.alloc_bo D ops size flags w).self, (self.alloc_bo D ops size flags w).world)
  | HwCall.alloc_bo_userptr userptr size flags =>
    ((self.alloc_bo_userptr D ops userptr size flags w).self,
      (self.alloc_bo_userptr D ops userptr size flags w).world)
  | HwCall.open_cu_context this cuname =>
    ((self.open_cu_context ops this cuname w).self, (self.open_cu_context ops this cuname w).world)
  | HwCall.close_cu_context this cuidx =>
    ((self.close_cu_context ops this cuidx w).self,
      (self.close_cu_context ops this cuidx w).world)
  | HwCall.exec_buf cmd => ((self.exec_buf D ops cmd w).self, (self.exec_buf D ops cmd w).world)
  | HwCall.create_hw_queue => ((self.create_hw_queue w).self, (self.create_hw_queue w).world)

/-- The context object and the shim after a sequence of member-function calls. -/
def hwcontext.run {σ : Type} (D : XrtDecls) (ops : ShimOps σ) :
    hwcontext → World σ → List HwCall → hwcontext × World σ
  | self, w, [] => (self, w)
  | self, w, c :: cs =>
    hwcontext.run D ops (hwcontext.call D ops self w c).1 (hwcontext.call D ops self w c).2 cs

/-- A shim with one bank of 1024 bytes whose loaded image has the single compute unit `krnl`
with a 64-byte register range, and whose registry holds one buffer: command buffer 7, backed
by the first 64 bytes of the bank and naming compute unit 5. -/
def exampleShim : SwEmuShim :=
  { SwEmuShim.ctor 4096 [1024] with
    mDDRMemoryManager :=
      [{ base := 0, size := 1024, freeList := [{ start := 64, size := 960 }],
         busyList := [{ start := 0, size := 64 }] }]
    m_xclbin := ["krnl"]
    mCURangeMap := [("krnl", 64)]
    mXoclObjMap := [(7, { size := 64, flags := 0, base := 0, userptr := false, cu_index := 5 })]
    mBufferCount := 8 }

/-- The example shim with an empty call log. -/
def exampleWorld : World SwEmuShim := { shim := exampleShim, calls := [] }

/-- The shim after a sequence of member-function calls made by any number of hardware
contexts: each step names the context object the call is made on and the call. -/
def runContexts {σ : Type} (D : XrtDecls) (ops : ShimOps σ) :
    World σ → List (hwcontext × HwCall) → World σ
  | w, [] => w
  | w, step :: rest => runContexts D ops (hwcontext.call D ops step.1 w step.2).2 rest

/-- Whether a logged shim call is a `close_cu_context` call. -/
def ShimCall.isClose : ShimCall → Bool
  | ShimCall.close_cu_context _ _ => true
  | _ => false

/-! ### Graphs -/

/-- Enumeration `GraphType::graph_state`, of underlying type `unsigned short`. The enumerator
`end` is written `end_`. -/
inductive graph_state where
  | stop
  | reset
  | running
  | suspend
  | end_
  deriving DecidableEq, Repr

/-- The enumerator values of `graph_state` as the header gives them. -/
def graph_state.val : graph_state → Nat
  | graph_state.stop => 0
  | graph_state.reset => 1
  | graph_state.running => 2
  | graph_state.suspend => 3
  | graph_state.end_ => 4

/-- Class `GraphType`: its non-static data members under the header's names. `_deviceHandle`
is the address of the shim and `_graph` the graph name the constructor was given. -/
structure GraphType where
  _deviceHandle : Nat
  _graph : String
  graphHandle : Nat
  _state : graph_state
  _name : String
  _startTime : Nat
  rtps : List String
  deriving DecidableEq, Repr

/-- Constructor `GraphType(handle, graph)`, run with the static counter `mGraphHandle` at the
given value. The assignments of the body in order; `graphHandle = mGraphHandle++` stores the
counter's value and increments the `unsigned int` counter. The result is the new object and
the counter after the call. -/
def GraphType.ctor (mGraphHandle : Nat) (handle : Nat) (graph : String) : GraphType × Nat :=
  ({ _deviceHandle := handle
     _graph := graph
     graphHandle := mGraphHandle
     _state := graph_state.stop
     _name := ""
     _startTime := 0
     rtps := [] },
    (mGraphHandle + 1) % 2 ^ 32)

/-- Body of `GraphType::getDeviceHandle`. -/
def GraphType.getDeviceHandle (self : GraphType) : Nat := self._deviceHandle

/-- Body of `GraphType::getGraphName`. -/
def GraphType.getGraphName (self : GraphType) : String := self._graph

/-- Body of `GraphType::getGraphHandle`. -/
def GraphType.getGraphHandle (self : GraphType) : Nat := self.graphHandle

/-- The graphs constructed one after the other from the given constructor arguments, the
static counter starting at `mGraphHandle`. -/
def constructGraphs : Nat → List (Nat × String) → List GraphType
  | _, [] => []
  | mGraphHandle, a :: rest =>
    (GraphType.ctor mGraphHandle a.1 a.2).1
      :: constructGraphs (GraphType.ctor mGraphHandle a.1 a.2).2 rest

/-! ## Theorems -/

/-- C1: allocating through a hardware context is the context-free path. Each overload of
`alloc_bo` leaves the shim and its call log exactly as a direct call of `xclAllocBO(size, flags)`
(resp. `xclAllocUserPtrBO(userptr, size, flags)`) does: one call, appended to the log with the
arguments unchanged. The context object is unchanged, and when the shim's handle differs from
`XRT_NULL_BO` the result is that handle converted by `to_xrt_buffer_handle`. -/
theorem alloc_bo_context_free {σ : Type} (D : XrtDecls) (ops : ShimOps σ) (self : hwcontext)
    (userptr size flags : Nat) (w : World σ) :
    ((self.alloc_bo D ops size flags w).world = (context_free_alloc ops size flags w).2 ∧
      (self.alloc_bo D ops size flags w).world.calls
        = w.calls ++ [ShimCall.xclAllocBO size flags] ∧
      (self.alloc_bo D ops size flags w).self = self ∧
      ((context_free_alloc ops size flags w).1 ≠ D.XRT_NULL_BO →
        (self.alloc_bo D ops size flags w).result
          = Except.ok (D.to_xrt_buffer_handle (context_free_alloc ops size flags w).1))) ∧
    ((self.alloc_bo_userptr D ops userptr size flags w).world
        = (context_free_alloc_userptr ops userptr size flags w).2 ∧
      (self.alloc_bo_userptr D ops userptr size flags w).world.calls
        = w.calls ++ [ShimCall.xclAllocUserPtrBO userptr size flags] ∧
      (self.alloc_bo_userptr D ops userptr size flags w).self = self ∧
      ((context_free_alloc_userptr ops userptr size flags w).1 ≠ D.XRT_NULL_BO →
        (self.alloc_bo_userptr D ops userptr size flags w).result
          = Except.ok (D.to_xrt_buffer_handle
              (context_free_alloc_userptr ops userptr size flags w).1))) := by
  refine ⟨⟨?_, ?_, ?_, ?_⟩, ⟨?_, ?_, ?_, ?_⟩⟩
  · unfold hwcontext.alloc_bo context_free_alloc
    dsimp only
    split <;> rfl
  · unfold hwcontext.alloc_bo
    dsimp only
    split <;> rfl
  · unfold hwcontext.alloc_bo
    dsimp only
    split <;> rfl
  · intro h
    unfold context_free_alloc at h
    unfold hwcontext.alloc_bo context_free_alloc
    dsimp only at h ⊢
    rw [if_neg h]
  · unfold hwcontext.alloc_bo_userptr context_free_alloc_userptr
    dsimp only
    split <;> rfl
  · unfold hwcontext.alloc_bo_userptr
    dsimp only
    split <;> rfl
  · unfold hwcontext.alloc_bo_userptr
    dsimp only
    split <;> rfl
  · intro h
    unfold context_free_alloc_userptr at h
    unfold hwcontext.alloc_bo_userptr context_free_alloc_userptr
    dsimp only at h ⊢
    rw [if_neg h]

/-- Witness for C1 on the example shim: both allocations return a handle other than the null
handle, and `alloc_bo` returns it. -/
theorem alloc_bo_context_free_witness :
    ((context_free_alloc (swEmuOps exampleDecls) 16 0 exampleWorld).1
        ≠ exampleDecls.XRT_NULL_BO ∧
      ((hwcontext.ctor 0 0 1 access_mode.shared).alloc_bo exampleDecls (swEmuOps exampleDecls)
          16 0 exampleWorld).result
        = Except.ok (exampleDecls.to_xrt_buffer_handle
            (context_free_alloc (swEmuOps exampleDecls) 16 0 exampleWorld).1)) ∧
    ((context_free_alloc_userptr (swEmuOps exampleDecls) 4096 16 0 exampleWorld).1
        ≠ exampleDecls.XRT_NULL_BO ∧
      ((hwcontext.ctor 0 0 1 access_mode.shared).alloc_bo_userptr exampleDecls
          (swEmuOps exampleDecls) 4096 16 0 exampleWorld).result
        = Except.ok (exampleDecls.to_xrt_buffer_handle
            (context_free_alloc_userptr (swEmuOps exampleDecls) 4096 16 0 exampleWorld).1)) :=
  ⟨⟨by decide,
      (alloc_bo_context_free exampleDecls (swEmuOps exampleDecls)
        (hwcontext.ctor 0 0 1 access_mode.shared) 4096 16 0 exampleWorld).1.2.2.2 (by decide)⟩,
    ⟨by decide,
      (alloc_bo_context_free exampleDecls (swEmuOps exampleDecls)
        (hwcontext.ctor 0 0 1 access_mode.shared) 4096 16 0 exampleWorld).2.2.2.2 (by decide)⟩⟩

/-- C2: buffer creation through a hardware context fails exactly when the shim's allocation
returns `XRT_NULL_BO`. For both overloads of `alloc_bo`: `std::bad_alloc` is raised if and only
if the shim returned `XRT_NULL_BO`; otherwise a handle is returned; every handle returned is the
conversion of a shim handle other than `XRT_NULL_BO`, so that (the conversion being injective)
the converted null handle is never a successful result. -/
theorem alloc_bo_fails_iff_null {σ : Type} (D : XrtDecls) (ops : ShimOps σ) (self : hwcontext)
    (userptr size flags : Nat) (w : World σ) :
    (((self.alloc_bo D ops size flags w).result = Except.error Exn.bad_alloc ↔
        (ops.xclAllocBO size flags w.shim).1 = D.XRT_NULL_BO) ∧
      ((ops.xclAllocBO size flags w.shim).1 ≠ D.XRT_NULL_BO →
        (self.alloc_bo D ops size flags w).result
          = Except.ok (D.to_xrt_buffer_handle (ops.xclAllocBO size flags w.shim).1)) ∧
      (∀ h, (self.alloc_bo D ops size flags w).result = Except.ok h →
        (ops.xclAllocBO size flags w.shim).1 ≠ D.XRT_NULL_BO ∧
          h = D.to_xrt_buffer_handle (ops.xclAllocBO size flags w.shim).1) ∧
      (Function.Injective D.to_xrt_buffer_handle →
        (self.alloc_bo D ops size flags w).result
          ≠ Except.ok (D.to_xrt_buffer_handle D.XRT_NULL_BO))) ∧
    (((self.alloc_bo_userptr D ops userptr size flags w).result = Except.error Exn.bad_alloc ↔
        (ops.xclAllocUserPtrBO userptr size flags w.shim).1 = D.XRT_NULL_BO) ∧
      ((ops.xclAllocUserPtrBO userptr size flags w.shim).1 ≠ D.XRT_NULL_BO →
        (self.alloc_bo_userptr D ops userptr size flags w).result
          = Except.ok (D.to_xrt_buffer_handle (ops.xclAllocUserPtrBO userptr size flags w.shim).1)) ∧
      (∀ h, (self.alloc_bo_userptr D ops userptr size flags w).result = Except.ok h →
        (ops.xclAllocUserPtrBO userptr size flags w.shim).1 ≠ D.XRT_NULL_BO ∧
          h = D.to_xrt_buffer_handle (ops.xclAllocUserPtrBO userptr size flags w.shim).1) ∧
      (Function.Injective D.to_xrt_buffer_handle →
        (self.alloc_bo_userptr D ops userptr size flags w).result
          ≠ Except.ok (D.to_xrt_buffer_handle D.XRT_NULL_BO))) := by
  constructor
  · unfold hwcontext.alloc_bo
    dsimp only
    by_cases hnull : (ops.xclAllocBO size flags w.shim).1 = D.XRT_NULL_BO
    · rw [if_pos hnull]
      refine ⟨by simp [hnull], fun hne => absurd hnull hne, ?_, ?_⟩
      · intro h hh
        cases hh
      · intro _ hh
        cases hh
    · rw [if_neg hnull]
      refine ⟨?_, fun _ => rfl, ?_, ?_⟩
      · constructor
        · intro hh
          cases hh
        · intro hh
          exact absurd hh hnull
      · intro h hh
        cases hh
        exact ⟨hnull, rfl⟩
      · intro hinj hh
        exact hnull (hinj (Except.ok.inj hh))
  · unfold hwcontext.alloc_bo_userptr
    dsimp only
    by_cases hnull : (ops.xclAllocUserPtrBO userptr size flags w.shim).1 = D.XRT_NULL_BO
    · rw [if_pos hnull]
      refine ⟨by simp [hnull], fun hne => absurd hnull hne, ?_, ?_⟩
      · intro h hh
        cases hh
      · intro _ hh
        cases hh
    · rw [if_neg hnull]
      refine ⟨?_, fun _ => rfl, ?_, ?_⟩
      · constructor
        · intro hh
          cases hh
        · intro hh
          exact absurd hh hnull
      · intro h hh
        cases hh
        exact ⟨hnull, rfl⟩
      · intro hinj hh
        exact hnull (hinj (Except.ok.inj hh))

/-- Witness for C2 on the example shim: a 16-byte request is served and its handle returned,
which is not the converted null handle; a 2000-byte request exceeds the 1024-byte bank, the
shim returns the null handle and `alloc_bo` raises `bad_alloc`. -/
theorem alloc_bo_fails_iff_null_witness :
    (((swEmuOps exampleDecls).xclAllocBO 16 0 exampleWorld.shim).1 ≠ exampleDecls.XRT_NULL_BO ∧
      ((hwcontext.ctor 0 0 1 access_mode.shared).alloc_bo exampleDecls (swEmuOps exampleDecls)
          16 0 exampleWorld).result = Except.ok 8) ∧
    (Function.Injective exampleDecls.to_xrt_buffer_handle ∧
      ((hwcontext.ctor 0 0 1 access_mode.shared).alloc_bo exampleDecls (swEmuOps exampleDecls)
          16 0 exampleWorld).result
        ≠ Except.ok (exampleDecls.to_xrt_buffer_handle exampleDecls.XRT_NULL_BO)) ∧
    (((swEmuOps exampleDecls).xclAllocBO 2000 0 exampleWorld.shim).1 = exampleDecls.XRT_NULL_BO ∧
      ((hwcontext.ctor 0 0 1 access_mode.shared).alloc_bo exampleDecls (swEmuOps exampleDecls)
          2000 0 exampleWorld).result = Except.error Exn.bad_alloc) :=
  ⟨⟨by decide,
      (alloc_bo_fails_iff_null exampleDecls (swEmuOps exampleDecls)
        (hwcontext.ctor 0 0 1 access_mode.shared) 0 16 0 exampleWorld).1.2.1 (by decide)⟩,
    ⟨fun _ _ h => h,
      (alloc_bo_fails_iff_null exampleDecls (swEmuOps exampleDecls)
        (hwcontext.ctor 0 0 1 access_mode.shared) 0 16 0 exampleWorld).1.2.2.2 (fun _ _ h => h)⟩,
    ⟨by decide,
      (alloc_bo_fails_iff_null exampleDecls (swEmuOps exampleDecls)
        (hwcontext.ctor 0 0 1 access_mode.shared) 0 2000 0 exampleWorld).1.1.2 (by decide)⟩⟩

/-- Every member function other than the getters returns the context object it was called on. -/
theorem hwcontext_call_self {σ : Type} (D : XrtDecls) (ops : ShimOps σ) (self : hwcontext)
    (w : World σ) (c : HwCall) : (hwcontext.call D ops self w c).1 = self := by
  cases c with
  | alloc_bo size flags =>
    show (self.alloc_bo D ops size flags w).self = self
    unfold hwcontext.alloc_bo
    dsimp only
    split <;> rfl
  | alloc_bo_userptr userptr size flags =>
    show (self.alloc_bo_userptr D ops userptr size flags w).self = self
    unfold hwcontext.alloc_bo_userptr
    dsimp only
    split <;> rfl
  | open_cu_context this cuname => rfl
  | close_cu_context this cuidx => rfl
  | exec_buf cmd => rfl
  | create_hw_queue => rfl

/-- A sequence of member-function calls returns the context object it started from. -/
theorem hwcontext_run_self {σ : Type} (D : XrtDecls) (ops : ShimOps σ) (calls : List HwCall) :
    ∀ (self : hwcontext) (w : World σ), (hwcontext.run D ops self w calls).1 = self := by
  induction calls with
  | nil => intro self w; rfl
  | cons c cs ih =>
    intro self w
    show (hwcontext.run D ops (hwcontext.call D ops self w c).1
      (hwcontext.call D ops self w c).2 cs).1 = self
    rw [ih, hwcontext_call_self]

/-- C3: creating a hardware context records the binding. A `hwcontext` constructed from a shim,
slot index, uuid and access mode returns that slot index from `get_slotidx`, that mode from
`get_mode` and that uuid from `get_xclbin_uuid`, and it still does after any sequence of calls
of `alloc_bo` (either overload), `open_cu_context`, `close_cu_context`, `exec_buf` and
`create_hw_queue`, whatever the shim does in them. -/
theorem hwcontext_records_binding {σ : Type} (D : XrtDecls) (ops : ShimOps σ)
    (shim slotidx uuid : Nat) (mode : access_mode) (w : World σ) (calls : List HwCall) :
    ((hwcontext.ctor shim slotidx uuid mode).get_slotidx = slotidx ∧
      (hwcontext.ctor shim slotidx uuid mode).get_mode = mode ∧
      (hwcontext.ctor shim slotidx uuid mode).get_xclbin_uuid = uuid) ∧
    ((hwcontext.run D ops (hwcontext.ctor shim slotidx uuid mode) w calls).1.get_slotidx
        = slotidx ∧
      (hwcontext.run D ops (hwcontext.ctor shim slotidx uuid mode) w calls).1.get_mode = mode ∧
      (hwcontext.run D ops (hwcontext.ctor shim slotidx uuid mode) w calls).1.get_xclbin_uuid
        = uuid) := by
  rw [hwcontext_run_self]
  exact ⟨⟨rfl, rfl, rfl⟩, ⟨rfl, rfl, rfl⟩⟩

/-- The hold list kept by `close_cu_context` no longer has the released pair. -/
theorem close_cu_context_releases (s : SwEmuShim) (hwctx_hdl : Nat) (hwctx : hwcontext)
    (cuidx : Nat) :
    (hwctx_hdl, cuidx) ∉ (s.close_cu_context hwctx_hdl hwctx cuidx).2.cu_holds := by
  unfold SwEmuShim.close_cu_context
  simp [List.mem_filter]

/-- The shim's `xclAllocBO` leaves the open compute-unit contexts alone. -/
theorem xclAllocBO_cu_holds (D : XrtDecls) (s : SwEmuShim) (size flags : Nat) :
    (SwEmuShim.xclAllocBO D s size flags).2.cu_holds = s.cu_holds := by
  unfold SwEmuShim.xclAllocBO
  cases (s.xclAllocDeviceBuffer size).1 <;> rfl

/-- The shim's `open_cu_context` keeps every compute-unit context that is open. -/
theorem open_cu_context_cu_holds (s : SwEmuShim) (hwctx_hdl : Nat) (hwctx : hwcontext)
    (cuname : String) (h : Nat × Nat) (hh : h ∈ s.cu_holds) :
    h ∈ (s.open_cu_context hwctx_hdl hwctx cuname).2.cu_holds := by
  unfold SwEmuShim.open_cu_context
  cases s.xclIPName2Index cuname with
  | none => exact hh
  | some cuidx =>
    dsimp only
    split
    · exact hh
    · exact List.mem_cons_of_mem _ hh

/-- The shim's `xclExecBuf` leaves the open compute-unit contexts alone. -/
theorem xclExecBuf_cu_holds (s : SwEmuShim) (cmdBO : Nat) :
    (s.xclExecBuf cmdBO).2.cu_holds = s.cu_holds := by
  unfold SwEmuShim.xclExecBuf
  cases s.mXoclObjMap.lookup cmdBO with
  | none => rfl
  | some bo =>
    dsimp only
    unfold SwEmuShim.submit
    split <;> rfl

/-- A member-function call other than `close_cu_context` for that context and unit keeps an
open compute-unit context open. -/
theorem call_keeps_hold (D : XrtDecls) (c : hwcontext) (w : World SwEmuShim) (call : HwCall)
    (p cuidx : Nat) (hheld : (p, cuidx) ∈ w.shim.cu_holds)
    (hcall : call ≠ HwCall.close_cu_context p cuidx) :
    (p, cuidx) ∈ (hwcontext.call D (swEmuOps D) c w call).2.shim.cu_holds := by
  cases call with
  | alloc_bo size flags =>
    show (p, cuidx) ∈ (c.alloc_bo D (swEmuOps D) size flags w).world.shim.cu_holds
    have e : (c.alloc_bo D (swEmuOps D) size flags w).world.shim
        = (SwEmuShim.xclAllocBO D w.shim size flags).2 := by
      unfold hwcontext.alloc_bo
      dsimp only
      split <;> rfl
    rw [e, xclAllocBO_cu_holds]
    exact hheld
  | alloc_bo_userptr userptr size flags =>
    show (p, cuidx) ∈ (c.alloc_bo_userptr D (swEmuOps D) userptr size flags w).world.shim.cu_holds
    have e : (c.alloc_bo_userptr D (swEmuOps D) userptr size flags w).world.shim
        = (w.shim.xclAllocUserPtrBO userptr size flags).2 := by
      unfold hwcontext.alloc_bo_userptr
      dsimp only
      split <;> rfl
    rw [e]
    exact hheld
  | open_cu_context this cuname =>
    exact open_cu_context_cu_holds w.shim this c cuname (p, cuidx) hheld
  | close_cu_context this idx =>
    show (p, cuidx) ∈ (w.shim.close_cu_context this c idx).2.cu_holds
    unfold SwEmuShim.close_cu_context
    dsimp only
    rw [List.mem_filter]
    refine ⟨hheld, ?_⟩
    rw [decide_eq_true_eq]
    intro heq
    apply hcall
    cases heq
    rfl
  | exec_buf cmd =>
    show (p, cuidx) ∈ (w.shim.xclExecBuf (D.to_xclBufferHandle cmd)).2.cu_holds
    rw [xclExecBuf_cu_holds]
    exact hheld
  | create_hw_queue => exact hheld

/-- A sequence of member-function calls, by whatever contexts, without a `close_cu_context` for
that context and unit keeps an open compute-unit context open. -/
theorem runContexts_keeps_hold (D : XrtDecls) (steps : List (hwcontext × HwCall))
    (p cuidx : Nat) :
    ∀ (w : World SwEmuShim), (p, cuidx) ∈ w.shim.cu_holds →
      (∀ step ∈ steps, step.2 ≠ HwCall.close_cu_context p cuidx) →
      (p, cuidx) ∈ (runContexts D (swEmuOps D) w steps).shim.cu_holds := by
  induction steps with
  | nil => intro w h _; exact h
  | cons st rest ih =>
    intro w h hs
    exact ih _ (call_keeps_hold D st.1 w st.2 p cuidx h (hs st (List.mem_cons_self _ _)))
      (fun x hx => hs x (List.mem_cons_of_mem _ hx))

/-- Whatever the shim does, a member function other than `close_cu_context` makes no
`close_cu_context` call on it. -/
theorem call_log_close {σ : Type} (D : XrtDecls) (ops : ShimOps σ) (c : hwcontext)
    (w : World σ) (call : HwCall) (hcall : ∀ t i, call ≠ HwCall.close_cu_context t i) :
    (hwcontext.call D ops c w call).2.calls.filter ShimCall.isClose
      = w.calls.filter ShimCall.isClose := by
  cases call with
  | alloc_bo size flags =>
    have e : (hwcontext.call D ops c w (HwCall.alloc_bo size flags)).2.calls
        = w.calls ++ [ShimCall.xclAllocBO size flags] := by
      show (c.alloc_bo D ops size flags w).world.calls = _
      unfold hwcontext.alloc_bo
      dsimp only
      split <;> rfl
    rw [e, List.filter_append]
    simp [ShimCall.isClose]
  | alloc_bo_userptr userptr size flags =>
    have e : (hwcontext.call D ops c w (HwCall.alloc_bo_userptr userptr size flags)).2.calls
        = w.calls ++ [ShimCall.xclAllocUserPtrBO userptr size flags] := by
      show (c.alloc_bo_userptr D ops userptr size flags w).world.calls = _
      unfold hwcontext.alloc_bo_userptr
      dsimp only
      split <;> rfl
    rw [e, List.filter_append]
    simp [ShimCall.isClose]
  | open_cu_context this cuname =>
    show (w.calls ++ [ShimCall.open_cu_context this cuname]).filter ShimCall.isClose = _
    rw [List.filter_append]
    simp [ShimCall.isClose]
  | close_cu_context this idx => exact absurd rfl (hcall this idx)
  | exec_buf cmd =>
    show (w.calls ++ [ShimCall.xclExecBuf (D.to_xclBufferHandle cmd)]).filter ShimCall.isClose
      = _
    rw [List.filter_append]
    simp [ShimCall.isClose]
  | create_hw_queue => rfl

/-- Whatever the shim does, a sequence of member-function calls without `close_cu_context`
makes no `close_cu_context` call on it. -/
theorem runContexts_log_close {σ : Type} (D : XrtDecls) (ops : ShimOps σ)
    (steps : List (hwcontext × HwCall)) :
    ∀ (w : World σ), (∀ step ∈ steps, ∀ t i, step.2 ≠ HwCall.close_cu_context t i) →
      (runContexts D ops w steps).calls.filter ShimCall.isClose
        = w.calls.filter ShimCall.isClose := by
  induction steps with
  | nil => intro w _; rfl
  | cons st rest ih =>
    intro w hs
    show (runContexts D ops (hwcontext.call D ops st.1 w st.2).2 rest).calls.filter
      ShimCall.isClose = _
    rw [ih _ (fun x hx => hs x (List.mem_cons_of_mem _ hx))]
    exact call_log_close D ops st.1 w st.2 (hs st (List.mem_cons_self _ _))

/-- Counterexample to C4 as stated: on the example shim an exclusive context at address 1 opens
compute unit `krnl` (index 0) and is then destroyed. The only call ever made on the shim is the
`open_cu_context`: destruction asked the shim to close nothing, and the shim still holds the
compute-unit context `(1, 0)` opened under the destroyed context. -/
theorem dtor_leaves_cu_context_open :
    ((hwcontext.ctor 0 0 1 access_mode.exclusive).open_cu_context (swEmuOps exampleDecls) 1
        "krnl" exampleWorld).result = Except.ok 0 ∧
    (hwcontext.dtor (hwcontext.ctor 0 0 1 access_mode.exclusive)
      ((hwcontext.ctor 0 0 1 access_mode.exclusive).open_cu_context (swEmuOps exampleDecls) 1
        "krnl" exampleWorld).world).calls = [ShimCall.open_cu_context 1 "krnl"] ∧
    (1, 0) ∈ (hwcontext.dtor (hwcontext.ctor 0 0 1 access_mode.exclusive)
      ((hwcontext.ctor 0 0 1 access_mode.exclusive).open_cu_context (swEmuOps exampleDecls) 1
        "krnl" exampleWorld).world).shim.cu_holds := by
  refine ⟨rfl, by decide, by decide⟩

/-- C4 (amended): destroying a hardware context makes no call on the shim and leaves the shim,
its call log and its open compute-unit contexts exactly as they were. The shim is asked to close
a compute-unit context by `close_cu_context` alone: whatever the shim does, calls of the other
member functions followed by the destruction add no `close_cu_context` call to the log. On the
shim as the specification describes it, a compute-unit context that is open stays open through
every sequence of member-function calls, by whatever contexts, that has no `close_cu_context`
for that context and unit, and through the destruction; `close_cu_context` closes it, removing
that context's hold on that unit and no other. -/
theorem dtor_keeps_shim_close_releases {σ : Type} (D : XrtDecls) (ops : ShimOps σ)
    (self : hwcontext) (w : World σ) (v : World SwEmuShim) (this cuidx : Nat)
    (steps : List (hwcontext × HwCall)) :
    hwcontext.dtor self w = w ∧
    ((∀ step ∈ steps, ∀ t i, step.2 ≠ HwCall.close_cu_context t i) →
      (hwcontext.dtor self (runContexts D ops w steps)).calls.filter ShimCall.isClose
        = w.calls.filter ShimCall.isClose) ∧
    ((this, cuidx) ∈ v.shim.cu_holds →
      (∀ step ∈ steps, step.2 ≠ HwCall.close_cu_context this cuidx) →
      (this, cuidx) ∈
        (hwcontext.dtor self (runContexts D (swEmuOps D) v steps)).shim.cu_holds) ∧
    (this, cuidx) ∉ (self.close_cu_context (swEmuOps D) this cuidx v).world.shim.cu_holds ∧
    (hwcontext.dtor self (self.close_cu_context (swEmuOps D) this cuidx v).world).shim.cu_holds
      = v.shim.cu_holds.filter (fun h => decide (h ≠ (this, cuidx))) :=
  ⟨rfl, fun hsteps => runContexts_log_close D ops steps w hsteps,
    fun hheld hsteps => runContexts_keeps_hold D steps this cuidx v hheld hsteps,
    close_cu_context_releases v.shim this self cuidx, rfl⟩

/-- Witness for C4 (amended): on the example shim context 1 opens `krnl`; allocations, a command
submission and an open and close by context 2 follow, then context 1 is destroyed. No step is a
`close_cu_context` for context 1 and unit 0, and the shim still holds `(1, 0)`. With the steps
that are no `close_cu_context` at all, the log has no `close_cu_context` call after the
destruction. -/
theorem dtor_keeps_shim_close_releases_witness :
    (((1, 0) ∈ ((hwcontext.ctor 0 0 1 access_mode.exclusive).open_cu_context
        (swEmuOps exampleDecls) 1 "krnl" exampleWorld).world.shim.cu_holds) ∧
      (∀ step ∈ [((hwcontext.ctor 0 0 1 access_mode.exclusive), HwCall.alloc_bo 16 0),
          ((hwcontext.ctor 0 0 1 access_mode.exclusive), HwCall.exec_buf 7),
          ((hwcontext.ctor 0 0 2 access_mode.shared), HwCall.open_cu_context 2 "krnl"),
          ((hwcontext.ctor 0 0 2 access_mode.shared), HwCall.close_cu_context 2 0),
          ((hwcontext.ctor 0 0 1 access_mode.exclusive), HwCall.alloc_bo_userptr 4096 16 0)],
        step.2 ≠ HwCall.close_cu_context 1 0) ∧
      (1, 0) ∈ (hwcontext.dtor (hwcontext.ctor 0 0 1 access_mode.exclusive)
        (runContexts exampleDecls (swEmuOps exampleDecls)
          ((hwcontext.ctor 0 0 1 access_mode.exclusive).open_cu_context
            (swEmuOps exampleDecls) 1 "krnl" exampleWorld).world
          [((hwcontext.ctor 0 0 1 access_mode.exclusive), HwCall.alloc_bo 16 0),
            ((hwcontext.ctor 0 0 1 access_mode.exclusive), HwCall.exec_buf 7),
            ((hwcontext.ctor 0 0 2 access_mode.shared), HwCall.open_cu_context 2 "krnl"),
            ((hwcontext.ctor 0 0 2 access_mode.shared), HwCall.close_cu_context 2 0),
            ((hwcontext.ctor 0 0 1 access_mode.exclusive),
              HwCall.alloc_bo_userptr 4096 16 0)])).shim.cu_holds) ∧
    ((∀ step ∈ [((hwcontext.ctor 0 0 1 access_mode.exclusive), HwCall.open_cu_context 1 "krnl"),
          ((hwcontext.ctor 0 0 1 access_mode.exclusive), HwCall.exec_buf 7)],
        ∀ t i, step.2 ≠ HwCall.close_cu_context t i) ∧
      (hwcontext.dtor (hwcontext.ctor 0 0 1 access_mode.exclusive)
        (runContexts exampleDecls (swEmuOps exampleDecls) exampleWorld
          [((hwcontext.ctor 0 0 1 access_mode.exclusive), HwCall.open_cu_context 1 "krnl"),
            ((hwcontext.ctor 0 0 1 access_mode.exclusive), HwCall.exec_buf 7)])).calls.filter
          ShimCall.isClose
        = exampleWorld.calls.filter ShimCall.isClose) :=
  ⟨⟨by decide, by decide,
      (dtor_keeps_shim_close_releases exampleDecls (swEmuOps exampleDecls)
        (hwcontext.ctor 0 0 1 access_mode.exclusive) exampleWorld
        ((hwcontext.ctor 0 0 1 access_mode.exclusive).open_cu_context
          (swEmuOps exampleDecls) 1 "krnl" exampleWorld).world 1 0
        [((hwcontext.ctor 0 0 1 access_mode.exclusive), HwCall.alloc_bo 16 0),
          ((hwcontext.ctor 0 0 1 access_mode.exclusive), HwCall.exec_buf 7),
          ((hwcontext.ctor 0 0 2 access_mode.shared), HwCall.open_cu_context 2 "krnl"),
          ((hwcontext.ctor 0 0 2 access_mode.shared), HwCall.close_cu_context 2 0),
          ((hwcontext.ctor 0 0 1 access_mode.exclusive),
            HwCall.alloc_bo_userptr 4096 16 0)]).2.2.1 (by decide) (by decide)⟩,
    ⟨by
        intro step hs t i
        simp only [List.mem_cons, List.mem_singleton, List.not_mem_nil, or_false] at hs
        rcases hs with rfl | rfl <;> simp,
      (dtor_keeps_shim_close_releases exampleDecls (swEmuOps exampleDecls)
        (hwcontext.ctor 0 0 1 access_mode.exclusive) exampleWorld exampleWorld 1 0
        [((hwcontext.ctor 0 0 1 access_mode.exclusive), HwCall.open_cu_context 1 "krnl"),
          ((hwcontext.ctor 0 0 1 access_mode.exclusive), HwCall.exec_buf 7)]).2.1
        (by
          intro step hs t i
          simp only [List.mem_cons, List.mem_singleton, List.not_mem_nil, or_false] at hs
          rcases hs with rfl | rfl <;> simp)⟩⟩

/-- C5, the code at the failing input: on the example shim command buffer 7 names compute unit
5, which is outside the one-unit layout. The shim's `xclExecBuf` fails with `InvalidCu` without
a transport exchange and reports status `-1`, yet `hwcontext::exec_buf` returns normally: the
failure is not reported to its caller. -/
theorem exec_buf_drops_failure :
    exampleShim.isValidCu 5 = false ∧
    exampleShim.xclExecBuf 7 = (Except.error Exn.InvalidCu, exampleShim) ∧
    ((swEmuOps exampleDecls).xclExecBuf (exampleDecls.to_xclBufferHandle 7) exampleWorld.shim).1
      = -1 ∧
    ((hwcontext.ctor 0 0 1 access_mode.shared).exec_buf exampleDecls (swEmuOps exampleDecls) 7
      exampleWorld).result = Except.ok () := by
  refine ⟨by decide, rfl, by decide, rfl⟩

/-- The range chosen by `bestFit` is one of the free ranges and is large enough. -/
theorem bestFit_some (sz : Nat) (l : List Range) (r : Range) (h : bestFit sz l = some r) :
    r ∈ l ∧ sz ≤ r.size := by
  induction l generalizing r with
  | nil => simp [bestFit] at h
  | cons x xs ih =>
    unfold bestFit at h
    cases hb : bestFit sz xs with
    | none =>
      rw [hb] at h
      dsimp only at h
      split at h
      · cases h
        exact ⟨List.mem_cons_self _ _, by assumption⟩
      · cases h
    | some b =>
      rw [hb] at h
      dsimp only at h
      split at h
      · cases h
        rename_i hc
        exact ⟨List.mem_cons_self _ _, hc.1⟩
      · cases h
        exact ⟨List.mem_cons_of_mem _ (ih _ hb).1, (ih _ hb).2⟩

/-- Total size of a list with one more range. -/
theorem totalSize_cons (r : Range) (l : List Range) : totalSize (r :: l) = r.size + totalSize l := by
  simp [totalSize]

/-- Cover count of a list with one more range. -/
theorem cover_cons (r : Range) (l : List Range) (a : Nat) :
    cover (r :: l) a = cover l a + cover [r] a := by
  simp [cover, List.countP_cons]

/-- Erasing a member of a list takes its size off the total. -/
theorem totalSize_erase (r : Range) (l : List Range) (h : r ∈ l) :
    totalSize (l.erase r) + r.size = totalSize l := by
  have hp := List.perm_cons_erase h
  have := (hp.map Range.size).sum_eq
  simp only [List.map_cons, List.sum_cons] at this
  unfold totalSize
  omega

/-- Erasing a member of a list takes its cover off the cover count. -/
theorem cover_erase (r : Range) (l : List Range) (a : Nat) (h : r ∈ l) :
    cover (l.erase r) a + cover [r] a = cover l a := by
  have hp := List.perm_cons_erase h
  have := hp.countP_eq (fun r => r.contains a)
  unfold cover
  rw [this, List.countP_cons]
  simp [List.countP_cons]

/-- A single range covers exactly the offsets between its start and its end. -/
theorem cover_single (r : Range) (a : Nat) :
    cover [r] a = if r.start ≤ a ∧ a < r.start + r.size then 1 else 0 := by
  simp [cover, List.countP_cons, Range.contains]

/-- A fresh memory manager is in a good state. -/
theorem init_inv (base size : Nat) : (MemoryManager.init base size).Inv := by
  constructor
  · simp [MemoryManager.init, totalSize]
  · intro a
    show cover [{ start := base, size := size }] a + cover [] a ≤ 1
    rw [cover_single]
    have : cover [] a = 0 := rfl
    split <;> omega

/-- Allocation keeps the memory manager in a good state. -/
theorem allocate_inv (m : MemoryManager) (sz : Nat) (h : m.Inv) : (m.allocate sz).2.Inv := by
  unfold MemoryManager.allocate
  cases hb : bestFit sz m.freeList with
  | none => exact h
  | some r =>
    obtain ⟨hmem, hsz⟩ := bestFit_some sz m.freeList r hb
    have ht := totalSize_erase r m.freeList hmem
    obtain ⟨hsum, hcov⟩ := h
    dsimp only
    constructor
    · dsimp only
      rw [totalSize_cons]
      split
      · rw [totalSize_cons]
        dsimp only
        omega
      · dsimp only
        omega
    · intro a
      have hc := cover_erase r m.freeList a hmem
      have := hcov a
      dsimp only
      rw [cover_cons _ m.busyList]
      split
      · rw [cover_cons]
        simp only [cover_single] at hc ⊢
        split at hc <;> split <;> split <;> omega
      · simp only [cover_single] at hc ⊢
        split at hc <;> split <;> omega

/-- Allocation keeps the bank size. -/
theorem allocate_size (m : MemoryManager) (sz : Nat) : (m.allocate sz).2.size = m.size := by
  unfold MemoryManager.allocate
  cases bestFit sz m.freeList <;> rfl

/-- Joining the free range in front keeps the total size. -/
theorem coalesceBefore_total (r : Range) (fl : List Range) :
    totalSize (coalesceBefore r fl).2 + (coalesceBefore r fl).1.size = totalSize fl + r.size := by
  unfold coalesceBefore
  cases hf : fl.find? (fun x => decide (x.start + x.size = r.start)) with
  | none => rfl
  | some x =>
    have ht := totalSize_erase x fl (List.mem_of_find?_eq_some hf)
    dsimp only
    omega

/-- Joining the free range in front keeps the cover count of every offset. -/
theorem coalesceBefore_cover (r : Range) (fl : List Range) (a : Nat) :
    cover (coalesceBefore r fl).2 a + cover [(coalesceBefore r fl).1] a
      = cover fl a + cover [r] a := by
  unfold coalesceBefore
  cases hf : fl.find? (fun x => decide (x.start + x.size = r.start)) with
  | none => rfl
  | some x =>
    have hc := cover_erase x fl a (List.mem_of_find?_eq_some hf)
    have hadj : x.start + x.size = r.start := by
      have := List.find?_some hf
      exact of_decide_eq_true this
    dsimp only
    simp only [cover_single] at hc ⊢
    split at hc <;> split <;> split <;> omega

/-- Joining the free range behind keeps the total size. -/
theorem coalesceAfter_total (r : Range) (fl : List Range) :
    totalSize (coalesceAfter r fl).2 + (coalesceAfter r fl).1.size = totalSize fl + r.size := by
  unfold coalesceAfter
  cases hf : fl.find? (fun y => decide (y.start = r.start + r.size)) with
  | none => rfl
  | some y =>
    have ht := totalSize_erase y fl (List.mem_of_find?_eq_some hf)
    dsimp only
    omega

/-- Joining the free range behind keeps the cover count of every offset. -/
theorem coalesceAfter_cover (r : Range) (fl : List Range) (a : Nat) :
    cover (coalesceAfter r fl).2 a + cover [(coalesceAfter r fl).1] a
      = cover fl a + cover [r] a := by
  unfold coalesceAfter
  cases hf : fl.find? (fun y => decide (y.start = r.start + r.size)) with
  | none => rfl
  | some y =>
    have hc := cover_erase y fl a (List.mem_of_find?_eq_some hf)
    have hadj : y.start = r.start + r.size := by
      have := List.find?_some hf
      exact of_decide_eq_true this
    dsimp only
    simp only [cover_single] at hc ⊢
    split at hc <;> split <;> split <;> omega

/-- Release keeps the memory manager in a good state. -/
theorem release_inv (m : MemoryManager) (offset : Nat) (h : m.Inv) : (m.release offset).Inv := by
  unfold MemoryManager.release
  cases hf : m.busyList.find? (fun r => decide (r.start = offset)) with
  | none => exact h
  | some r =>
    have hmem := List.mem_of_find?_eq_some hf
    obtain ⟨hsum, hcov⟩ := h
    dsimp only
    constructor
    · dsimp only
      rw [totalSize_cons]
      have h1 := coalesceBefore_total r m.freeList
      have h2 := coalesceAfter_total (coalesceBefore r m.freeList).1 (coalesceBefore r m.freeList).2
      have h3 := totalSize_erase r m.busyList hmem
      omega
    · intro a
      dsimp only
      rw [cover_cons]
      have h1 := coalesceBefore_cover r m.freeList a
      have h2 := coalesceAfter_cover (coalesceBefore r m.freeList).1
        (coalesceBefore r m.freeList).2 a
      have h3 := cover_erase r m.busyList a hmem
      have := hcov a
      omega

/-- Release keeps the bank size. -/
theorem release_size (m : MemoryManager) (offset : Nat) : (m.release offset).size = m.size := by
  unfold MemoryManager.release
  cases m.busyList.find? (fun r => decide (r.start = offset)) <;> rfl

/-- Allocation from the first bank that can serve it keeps every bank in a good state. -/
theorem allocFirst_inv (sz : Nat) (l : List MemoryManager) (h : ∀ m ∈ l, m.Inv) :
    ∀ m ∈ (allocFirst sz l).2, m.Inv := by
  induction l with
  | nil => intro m hm; cases hm
  | cons x xs ih =>
    have hx := h x (List.mem_cons_self _ _)
    have hxs : ∀ m ∈ xs, m.Inv := fun m hm => h m (List.mem_cons_of_mem _ hm)
    unfold allocFirst
    cases ha : (x.allocate sz).1 with
    | none =>
      intro m hm
      rcases List.mem_cons.mp hm with rfl | hm
      · exact hx
      · exact ih hxs m hm
    | some off =>
      intro m hm
      rcases List.mem_cons.mp hm with rfl | hm
      · exact allocate_inv x sz hx
      · exact hxs m hm

/-- Allocation from the first bank that can serve it keeps the bank sizes. -/
theorem allocFirst_sizes (sz : Nat) (l : List MemoryManager) :
    (allocFirst sz l).2.map MemoryManager.size = l.map MemoryManager.size := by
  induction l with
  | nil => rfl
  | cons x xs ih =>
    unfold allocFirst
    cases ha : (x.allocate sz).1 with
    | none => simp [ih]
    | some off => simp [allocate_size]

/-- Allocation from a named bank keeps every bank in a good state. -/
theorem allocAt_inv (sz : Nat) (l : List MemoryManager) :
    ∀ (i : Nat), (∀ m ∈ l, m.Inv) → ∀ m ∈ (allocAt sz i l).2, m.Inv := by
  induction l with
  | nil => intro i _ m hm; cases i <;> cases hm
  | cons x xs ih =>
    intro i h
    have hx := h x (List.mem_cons_self _ _)
    have hxs : ∀ m ∈ xs, m.Inv := fun m hm => h m (List.mem_cons_of_mem _ hm)
    cases i with
    | zero =>
      intro m hm
      rcases List.mem_cons.mp hm with rfl | hm
      · exact allocate_inv x sz hx
      · exact hxs m hm
    | succ j =>
      intro m hm
      rcases List.mem_cons.mp hm with rfl | hm
      · exact hx
      · exact ih j hxs m hm

/-- Allocation from a named bank keeps the bank sizes. -/
theorem allocAt_sizes (sz : Nat) (l : List MemoryManager) :
    ∀ (i : Nat), (allocAt sz i l).2.map MemoryManager.size = l.map MemoryManager.size := by
  induction l with
  | nil => intro i; cases i <;> rfl
  | cons x xs ih =>
    intro i
    cases i with
    | zero => simp [allocAt, allocate_size]
    | succ j => simp [allocAt, ih j]

/-- Every memory manager set up by `initMemoryManager` is in a good state. -/
theorem initMemoryManager_inv (l : List Nat) :
    ∀ (base : Nat), ∀ m ∈ initMemoryManager base l, m.Inv := by
  induction l with
  | nil => intro base m hm; cases hm
  | cons sz rest ih =>
    intro base m hm
    rcases List.mem_cons.mp hm with rfl | hm
    · exact init_inv base sz
    · exact ih (base + sz) m hm

/-- The memory managers set up by `initMemoryManager` have the sizes of the bank list. -/
theorem initMemoryManager_sizes (l : List Nat) :
    ∀ (base : Nat), (initMemoryManager base l).map MemoryManager.size = l := by
  induction l with
  | nil => intro base; rfl
  | cons sz rest ih =>
    intro base
    simp [initMemoryManager, MemoryManager.init, ih (base + sz)]

/-- One allocate or free request keeps every bank in a good state. -/
theorem memStep_inv (s : SwEmuShim) (op : MemOp) (h : ∀ m ∈ s.mDDRMemoryManager, m.Inv) :
    ∀ m ∈ (s.memStep op).mDDRMemoryManager, m.Inv := by
  cases op with
  | alloc size => exact allocFirst_inv size s.mDDRMemoryManager h
  | alloc2 size flags => exact allocAt_inv size s.mDDRMemoryManager flags h
  | free buf =>
    intro m hm
    obtain ⟨m0, hm0, rfl⟩ := List.mem_map.mp hm
    exact release_inv m0 buf (h m0 hm0)

/-- One allocate or free request keeps the bank sizes. -/
theorem memStep_sizes (s : SwEmuShim) (op : MemOp) :
    (s.memStep op).mDDRMemoryManager.map MemoryManager.size
      = s.mDDRMemoryManager.map MemoryManager.size := by
  cases op with
  | alloc size => exact allocFirst_sizes size s.mDDRMemoryManager
  | alloc2 size flags => exact allocAt_sizes size s.mDDRMemoryManager flags
  | free buf =>
    show (s.mDDRMemoryManager.map (fun m => m.release buf)).map MemoryManager.size = _
    rw [List.map_map]
    congr 1
    funext m
    exact release_size m buf

/-- A sequence of allocate and free requests keeps every bank in a good state. -/
theorem memRun_inv (ops : List MemOp) :
    ∀ (s : SwEmuShim), (∀ m ∈ s.mDDRMemoryManager, m.Inv) →
      ∀ m ∈ (s.memRun ops).mDDRMemoryManager, m.Inv := by
  induction ops with
  | nil => intro s h; exact h
  | cons op rest ih =>
    intro s h
    exact ih (s.memStep op) (memStep_inv s op h)

/-- A sequence of allocate and free requests keeps the bank sizes. -/
theorem memRun_sizes (ops : List MemOp) :
    ∀ (s : SwEmuShim), (s.memRun ops).mDDRMemoryManager.map MemoryManager.size
      = s.mDDRMemoryManager.map MemoryManager.size := by
  induction ops with
  | nil => intro s; rfl
  | cons op rest ih =>
    intro s
    exact (ih (s.memStep op)).trans (memStep_sizes s op)

/-- Two ranges overlap exactly when some offset lies in both. -/
theorem overlaps_iff (r s : Range) :
    r.overlaps s ↔ ∃ a, r.contains a = true ∧ s.contains a = true := by
  unfold Range.overlaps Range.contains
  simp only [Bool.and_eq_true, decide_eq_true_eq]
  constructor
  · intro h
    exact ⟨max r.start s.start, by omega⟩
  · rintro ⟨a, ha⟩
    omega

/-- Ranges of which no offset lies in two are pairwise free of overlap. -/
theorem pairwise_of_cover (l : List Range) (h : ∀ a, cover l a ≤ 1) :
    l.Pairwise (fun r s => ¬ r.overlaps s) := by
  induction l with
  | nil => exact List.Pairwise.nil
  | cons r rest ih =>
    rw [List.pairwise_cons]
    constructor
    · intro s hs hov
      obtain ⟨a, hr, hsa⟩ := (overlaps_iff r s).mp hov
      have h1 := h a
      rw [cover_cons] at h1
      have h2 : 0 < cover rest a := List.countP_pos_iff.mpr ⟨s, hs, hsa⟩
      have h3 : cover [r] a = 1 := by simp [cover, List.countP_cons, hr]
      omega
    · apply ih
      intro a
      have h1 := h a
      rw [cover_cons] at h1
      omega

/-- In a good state the live ranges fit the bank and are pairwise free of overlap. -/
theorem inv_live (m : MemoryManager) (h : m.Inv) :
    totalSize m.busyList ≤ m.size ∧ m.busyList.Pairwise (fun r s => ¬ r.overlaps s) := by
  obtain ⟨hsum, hcov⟩ := h
  refine ⟨by omega, pairwise_of_cover _ (fun a => ?_)⟩
  have := hcov a
  omega

/-- C6: for every sequence of allocate (`xclAllocDeviceBuffer`, `xclAllocDeviceBuffer2`) and free
(`xclFreeDeviceBuffer`) requests on a freshly constructed shim, every memory bank keeps its
size, the sizes of its live allocated ranges add up to at most the bank size, and no two of its
live ranges overlap. -/
theorem live_ranges_fit_and_disjoint (messageSize : Nat) (DDRBankList : List Nat)
    (ops : List MemOp) :
    ((SwEmuShim.ctor messageSize DDRBankList).memRun ops).mDDRMemoryManager.map
        MemoryManager.size = DDRBankList ∧
    ∀ m ∈ ((SwEmuShim.ctor messageSize DDRBankList).memRun ops).mDDRMemoryManager,
      totalSize m.busyList ≤ m.size ∧ m.busyList.Pairwise (fun r s => ¬ r.overlaps s) := by
  constructor
  · rw [memRun_sizes]
    exact initMemoryManager_sizes DDRBankList 0
  · intro m hm
    exact inv_live m (memRun_inv ops _ (initMemoryManager_inv DDRBankList 0) m hm)

/-- Witness for C6: nine requests on one bank of 1024 bytes leave the live ranges `[0, 5)` and
`[100, 130)`. -/
theorem live_ranges_fit_and_disjoint_witness :
    ({ base := 0, size := 1024,
       freeList := [{ start := 5, size := 95 }, { start := 130, size := 894 }],
       busyList := [{ start := 0, size := 5 }, { start := 100, size := 30 }] } : MemoryManager)
      ∈ ((SwEmuShim.ctor 4096 [1024]).memRun
          [MemOp.alloc 100, MemOp.alloc 200, MemOp.alloc 50, MemOp.free 100, MemOp.alloc 30,
            MemOp.free 0, MemOp.free 300, MemOp.alloc2 5 0, MemOp.alloc2 5 1]).mDDRMemoryManager ∧
    totalSize [({ start := 0, size := 5 } : Range), { start := 100, size := 30 }] ≤ 1024 ∧
    [({ start := 0, size := 5 } : Range), { start := 100, size := 30 }].Pairwise
      (fun r s => ¬ r.overlaps s) :=
  ⟨by decide,
    (live_ranges_fit_and_disjoint 4096 [1024]
      [MemOp.alloc 100, MemOp.alloc 200, MemOp.alloc 50, MemOp.free 100, MemOp.alloc 30,
        MemOp.free 0, MemOp.free 300, MemOp.alloc2 5 0, MemOp.alloc2 5 1]).2
      { base := 0, size := 1024,
        freeList := [{ start := 5, size := 95 }, { start := 130, size := 894 }],
        busyList := [{ start := 0, size := 5 }, { start := 100, size := 30 }] } (by decide)⟩

/-- The offset returned by `allocate` is the start of a live range of the requested size. -/
theorem allocate_returns_live (m : MemoryManager) (sz off : Nat)
    (h : (m.allocate sz).1 = some off) :
    ({ start := off, size := sz } : Range) ∈ (m.allocate sz).2.busyList := by
  unfold MemoryManager.allocate at h ⊢
  cases hb : bestFit sz m.freeList with
  | none =>
    rw [hb] at h
    cases h
  | some r =>
    rw [hb] at h
    dsimp only at h ⊢
    cases h
    exact List.mem_cons_self _ _

/-- Opening a unit that resolves in the layout and that no other context holds succeeds and
records the hold. -/
theorem open_cu_context_ok (s : SwEmuShim) (hwctx_hdl : Nat) (hwctx : hwcontext)
    (cuname : String) (cuidx : Nat) (hname : s.xclIPName2Index cuname = some cuidx)
    (hfree : ∀ h ∈ s.cu_holds, h.2 = cuidx → h.1 = hwctx_hdl) :
    s.open_cu_context hwctx_hdl hwctx cuname
      = (Except.ok cuidx, { s with cu_holds := (hwctx_hdl, cuidx) :: s.cu_holds }) := by
  unfold SwEmuShim.open_cu_context
  rw [hname]
  dsimp only
  rw [if_neg]
  rintro ⟨_, hany⟩
  rw [List.any_eq_true] at hany
  obtain ⟨h, hmem, hh⟩ := hany
  simp only [Bool.and_eq_true, decide_eq_true_eq] at hh
  exact hh.2 (hfree h hmem hh.1)

/-- Opening, in exclusive mode, a unit that another context holds fails with `Busy` and changes
nothing. -/
theorem open_cu_context_busy (s : SwEmuShim) (hwctx_hdl other : Nat) (hwctx : hwcontext)
    (cuname : String) (cuidx : Nat) (hname : s.xclIPName2Index cuname = some cuidx)
    (hmode : hwctx.get_mode = access_mode.exclusive) (hne : other ≠ hwctx_hdl)
    (hheld : (other, cuidx) ∈ s.cu_holds) :
    s.open_cu_context hwctx_hdl hwctx cuname = (Except.error Exn.Busy, s) := by
  unfold SwEmuShim.open_cu_context
  rw [hname]
  dsimp only
  rw [if_pos]
  refine ⟨hmode, ?_⟩
  rw [List.any_eq_true]
  exact ⟨(other, cuidx), hheld, by simp [hne]⟩

/-- C7: opening a compute-unit context in exclusive mode fails with `Busy` when another live
context holds the unit. Two contexts with distinct handles open the same compute-unit name,
one that the loaded layout resolves and that nobody holds yet; the second context is in
exclusive mode (the first may be, too: its mode plays no part). The first call succeeds with
the unit's index, the second fails with `Busy`; after the first context calls
`close_cu_context` the second context's `open_cu_context` succeeds. -/
theorem exclusive_open_busy (D : XrtDecls) (w : World SwEmuShim) (p1 p2 : Nat)
    (c1 c2 : hwcontext) (cuname : String) (cuidx : Nat)
    (hne : p1 ≠ p2)
    (hmode2 : c2.get_mode = access_mode.exclusive)
    (hname : w.shim.xclIPName2Index cuname = some cuidx)
    (hfree : ∀ h ∈ w.shim.cu_holds, h.2 ≠ cuidx) :
    (c1.open_cu_context (swEmuOps D) p1 cuname w).result = Except.ok cuidx ∧
    (c2.open_cu_context (swEmuOps D) p2 cuname
      (c1.open_cu_context (swEmuOps D) p1 cuname w).world).result = Except.error Exn.Busy ∧
    (c1.close_cu_context (swEmuOps D) p1 cuidx
      (c2.open_cu_context (swEmuOps D) p2 cuname
        (c1.open_cu_context (swEmuOps D) p1 cuname w).world).world).result = Except.ok () ∧
    (c2.open_cu_context (swEmuOps D) p2 cuname
      (c1.close_cu_context (swEmuOps D) p1 cuidx
        (c2.open_cu_context (swEmuOps D) p2 cuname
          (c1.open_cu_context (swEmuOps D) p1 cuname w).world).world).world).result
      = Except.ok cuidx := by
  have e1 := open_cu_context_ok w.shim p1 c1 cuname cuidx hname
    (fun h hmem hh => absurd hh (hfree h hmem))
  have e2 := open_cu_context_busy
    { w.shim with cu_holds := (p1, cuidx) :: w.shim.cu_holds } p2 p1 c2 cuname cuidx hname hmode2
    hne (List.mem_cons_self _ _)
  have e4 := open_cu_context_ok
    { w.shim with
      cu_holds := ((p1, cuidx) :: w.shim.cu_holds).filter (fun h => decide (h ≠ (p1, cuidx))) }
    p2 c2 cuname cuidx hname
    (fun h hmem hh => by
      have hm := (List.mem_filter.mp hmem).1
      rcases List.mem_cons.mp hm with heq | hold
      · have hk := (List.mem_filter.mp hmem).2
        simp [heq] at hk
      · exact absurd hh (hfree h hold))
  refine ⟨?_, ?_, ?_, ?_⟩
  · show (w.shim.open_cu_context p1 c1 cuname).1 = Except.ok cuidx
    rw [e1]
  · show (SwEmuShim.open_cu_context (w.shim.open_cu_context p1 c1 cuname).2 p2 c2 cuname).1
      = Except.error Exn.Busy
    rw [e1]
    dsimp only
    rw [e2]
  · rfl
  · show (SwEmuShim.open_cu_context
      (SwEmuShim.close_cu_context
        (SwEmuShim.open_cu_context (w.shim.open_cu_context p1 c1 cuname).2 p2 c2 cuname).2
        p1 c1 cuidx).2 p2 c2 cuname).1 = Except.ok cuidx
    rw [e1]
    dsimp only
    rw [e2]
    unfold SwEmuShim.close_cu_context
    dsimp only
    rw [e4]

/-- Witness for C7 on the example shim: contexts at addresses 1 and 2, both exclusive, open
`krnl`, which the layout resolves to index 0 and which nobody holds. -/
theorem exclusive_open_busy_witness :
    (1 : Nat) ≠ 2 ∧
    exampleWorld.shim.xclIPName2Index "krnl" = some 0 ∧
    (∀ h ∈ exampleWorld.shim.cu_holds, h.2 ≠ 0) ∧
    ((hwcontext.ctor 0 0 1 access_mode.exclusive).open_cu_context (swEmuOps exampleDecls) 2
      "krnl"
      ((hwcontext.ctor 0 0 1 access_mode.exclusive).open_cu_context (swEmuOps exampleDecls) 1
        "krnl" exampleWorld).world).result = Except.error Exn.Busy :=
  ⟨by decide, by decide, by decide,
    (exclusive_open_busy exampleDecls exampleWorld 1 2
      (hwcontext.ctor 0 0 1 access_mode.exclusive) (hwcontext.ctor 0 0 1 access_mode.exclusive)
      "krnl" 0 (by decide) rfl (by decide) (by decide)).2.1⟩

/-- An offset that `isValidOffset` rejects for the unit's range makes `xclRegRW` fail with
`InvalidOffset` and leave the shim as it was. -/
theorem xclRegRW_rejected (peer : RpcCall → Nat) (s : SwEmuShim) (rd : Bool)
    (cu_index offset data : Nat)
    (h : SwEmuShim.isValidOffset offset (s.getCuAddRange cu_index) = false) :
    SwEmuShim.xclRegRW peer s rd cu_index offset data = (Except.error Exn.InvalidOffset, s) := by
  unfold SwEmuShim.xclRegRW
  rw [h]
  rfl

/-- C8: register reads and writes are bounded by the compute unit's address range. For every
compute-unit index, offset and data, `isValidOffset(offset, getCuAddRange(cu_index))` is false
exactly when the offset is not below the unit's `cuAddRange`. Whenever the offset is not below
`cuAddRange`, and so whenever `isValidOffset` is false, `xclRegRW` and through it `xclRegRead`
and `xclRegWrite` fail with `InvalidOffset` and leave the shim, its transport log included,
unchanged: no exchange is performed. An offset below `cuAddRange` is not rejected: it performs
exactly one exchange, the read or the write at that unit and offset. -/
theorem xclRegRW_invalid_offset (peer : RpcCall → Nat) (s : SwEmuShim) (rd : Bool)
    (cu_index offset data : Nat) :
    (SwEmuShim.isValidOffset offset (s.getCuAddRange cu_index) = false ↔
      s.getCuAddRange cu_index ≤ offset) ∧
    (s.getCuAddRange cu_index ≤ offset →
      SwEmuShim.xclRegRW peer s rd cu_index offset data = (Except.error Exn.InvalidOffset, s) ∧
      SwEmuShim.xclRegRead peer s cu_index offset = (Except.error Exn.InvalidOffset, s) ∧
      SwEmuShim.xclRegWrite peer s cu_index offset data = (Except.error Exn.InvalidOffset, s) ∧
      (SwEmuShim.xclRegRW peer s rd cu_index offset data).2.sock = s.sock) ∧
    (SwEmuShim.isValidOffset offset (s.getCuAddRange cu_index) = false →
      SwEmuShim.xclRegRW peer s rd cu_index offset data = (Except.error Exn.InvalidOffset, s) ∧
      SwEmuShim.xclRegRead peer s cu_index offset = (Except.error Exn.InvalidOffset, s) ∧
      SwEmuShim.xclRegWrite peer s cu_index offset data = (Except.error Exn.InvalidOffset, s) ∧
      (SwEmuShim.xclRegRW peer s rd cu_index offset data).2.sock = s.sock) ∧
    (offset < s.getCuAddRange cu_index →
      (SwEmuShim.xclRegRW peer s rd cu_index offset data).1
        = Except.ok (if rd then peer (RpcCall.regRead cu_index offset) else data) ∧
      (SwEmuShim.xclRegRW peer s rd cu_index offset data).2.sock
        = s.sock ++ [if rd then RpcCall.regRead cu_index offset
            else RpcCall.regWrite cu_index offset data]) := by
  have hiff : SwEmuShim.isValidOffset offset (s.getCuAddRange cu_index) = false ↔
      s.getCuAddRange cu_index ≤ offset := by
    unfold SwEmuShim.isValidOffset
    rw [decide_eq_false_iff_not, Nat.not_lt]
  have hfail : SwEmuShim.isValidOffset offset (s.getCuAddRange cu_index) = false →
      SwEmuShim.xclRegRW peer s rd cu_index offset data = (Except.error Exn.InvalidOffset, s) ∧
      SwEmuShim.xclRegRead peer s cu_index offset = (Except.error Exn.InvalidOffset, s) ∧
      SwEmuShim.xclRegWrite peer s cu_index offset data = (Except.error Exn.InvalidOffset, s) ∧
      (SwEmuShim.xclRegRW peer s rd cu_index offset data).2.sock = s.sock := by
    intro h
    refine ⟨xclRegRW_rejected peer s rd cu_index offset data h,
      xclRegRW_rejected peer s true cu_index offset 0 h,
      xclRegRW_rejected peer s false cu_index offset data h, ?_⟩
    rw [xclRegRW_rejected peer s rd cu_index offset data h]
  refine ⟨hiff, fun hle => hfail (hiff.mpr hle), hfail, ?_⟩
  intro hlt
  have hv : SwEmuShim.isValidOffset offset (s.getCuAddRange cu_index) = true := by
    unfold SwEmuShim.isValidOffset
    exact decide_eq_true hlt
  unfold SwEmuShim.xclRegRW
  rw [hv]
  cases rd <;> exact ⟨rfl, rfl⟩

/-- Witness for C8 on the example shim, whose unit 0 has a 64-byte range: offset 64 is not below
it, so the read fails with `InvalidOffset` and the shim is unchanged; offset 60 is below it,
so the write performs one exchange. -/
theorem xclRegRW_invalid_offset_witness :
    (exampleShim.getCuAddRange 0 ≤ 64 ∧
      SwEmuShim.xclRegRead (fun _ => 0) exampleShim 0 64
        = (Except.error Exn.InvalidOffset, exampleShim)) ∧
    (SwEmuShim.isValidOffset 64 (exampleShim.getCuAddRange 0) = false ∧
      SwEmuShim.xclRegWrite (fun _ => 0) exampleShim 0 64 9
        = (Except.error Exn.InvalidOffset, exampleShim)) ∧
    (60 < exampleShim.getCuAddRange 0 ∧
      (SwEmuShim.xclRegRW (fun _ => 0) exampleShim false 0 60 9).2.sock
        = exampleShim.sock ++ [RpcCall.regWrite 0 60 9]) :=
  ⟨⟨by decide,
      ((xclRegRW_invalid_offset (fun _ => 0) exampleShim true 0 64 0).2.1 (by decide)).2.1⟩,
    ⟨by decide,
      ((xclRegRW_invalid_offset (fun _ => 0) exampleShim true 0 64 9).2.2.1 (by decide)).2.2.1⟩,
    ⟨by decide,
      ((xclRegRW_invalid_offset (fun _ => 0) exampleShim false 0 60 9).2.2.2 (by decide)).2⟩⟩

/-- C9: the maximum transport message size is read back unchanged. After `set_messagesize(m)`
with `m` an `unsigned int` value, `get_messagesize()` returns `m`; a later `set_messagesize`
overrides an earlier one; and `set_messagesize` changes no other field of the shim. -/
theorem set_get_messagesize (s : SwEmuShim) (m m2 : Nat) :
    (m < 2 ^ 32 → (s.set_messagesize m).get_messagesize = m) ∧
    (s.set_messagesize m).set_messagesize m2 = s.set_messagesize m2 ∧
    ((s.set_messagesize m).mXoclObjMap = s.mXoclObjMap ∧
      (s.set_messagesize m).mImportedBOs = s.mImportedBOs ∧
      (s.set_messagesize m).mReqList = s.mReqList ∧
      (s.set_messagesize m).mDDRMemoryManager = s.mDDRMemoryManager ∧
      (s.set_messagesize m).mBufferCount = s.mBufferCount ∧
      (s.set_messagesize m).mReqCounter = s.mReqCounter ∧
      (s.set_messagesize m).mCURangeMap = s.mCURangeMap ∧
      (s.set_messagesize m).m_xclbin = s.m_xclbin ∧
      (s.set_messagesize m).sock = s.sock ∧
      (s.set_messagesize m).cu_holds = s.cu_holds) := by
  refine ⟨?_, rfl, ⟨rfl, rfl, rfl, rfl, rfl, rfl, rfl, rfl, rfl, rfl⟩⟩
  intro hm
  show m % 2 ^ 32 = m
  exact Nat.mod_eq_of_lt hm

/-- Witness for C9: the message size 65536 is read back from the example shim. -/
theorem set_get_messagesize_witness :
    (65536 : Nat) < 2 ^ 32 ∧ (exampleShim.set_messagesize 65536).get_messagesize = 65536 :=
  ⟨by decide, (set_get_messagesize exampleShim 65536 0).1 (by decide)⟩

/-- C10: imported buffer handles are told apart from owning ones. `isImported(h)` returns true
if and only if `h` is in `mImportedBOs`; it returns false for every handle when that set is
empty; and the query leaves the shim, the set and the buffer registry included, unchanged. -/
theorem isImported_iff_mem (s : SwEmuShim) (h : Nat) :
    ((s.isImported h).1 = true ↔ h ∈ s.mImportedBOs) ∧
    (s.mImportedBOs = [] → (s.isImported h).1 = false) ∧
    (s.isImported h).2 = s ∧
    (s.isImported h).2.mImportedBOs = s.mImportedBOs ∧
    (s.isImported h).2.mXoclObjMap = s.mXoclObjMap := by
  unfold SwEmuShim.isImported
  by_cases hm : h ∈ s.mImportedBOs
  · rw [if_pos hm]
    refine ⟨by simp [hm], ?_, rfl, rfl, rfl⟩
    intro hempty
    rw [hempty] at hm
    cases hm
  · rw [if_neg hm]
    exact ⟨by simp [hm], fun _ => rfl, rfl, rfl, rfl⟩

/-- Witness for C10: the example shim has imported nothing, so handle 7 is not imported. -/
theorem isImported_iff_mem_witness :
    exampleShim.mImportedBOs = [] ∧ (exampleShim.isImported 7).1 = false :=
  ⟨rfl, (isImported_iff_mem exampleShim 7).2.1 rfl⟩

/-- The graph constructed at position `i` of a sequence carries the counter's starting value plus
`i`, modulo `2 ^ 32`. -/
theorem constructGraphs_handle (args : List (Nat × String)) :
    ∀ (g i : Nat) (a : GraphType), g < 2 ^ 32 → (constructGraphs g args)[i]? = some a →
      a.getGraphHandle = (g + i) % 2 ^ 32 := by
  induction args with
  | nil => intro g i a _ h; simp [constructGraphs] at h
  | cons x rest ih =>
    intro g i a hg h
    cases i with
    | zero =>
      simp only [constructGraphs, List.getElem?_cons_zero, Option.some.injEq] at h
      subst h
      show g = (g + 0) % 2 ^ 32
      omega
    | succ k =>
      simp only [constructGraphs, List.getElem?_cons_succ] at h
      have hlt : (GraphType.ctor g x.1 x.2).2 < 2 ^ 32 := Nat.mod_lt _ (by decide)
      have := ih _ k a hlt h
      rw [this]
      show ((g + 1) % 2 ^ 32 + k) % 2 ^ 32 = (g + (k + 1)) % 2 ^ 32
      omega

/-- C11 (amended): graph handles are handed out from the shared `unsigned int` counter
`mGraphHandle`. Constructing a `GraphType` gives it the counter's current value and increments
the counter by one modulo `2 ^ 32`; the new graph is in state `stop` with start time 0 and empty
name, and `getDeviceHandle` / `getGraphName` return the constructor's arguments. Two graphs
constructed `j - i < 2 ^ 32` constructions apart have distinct handles, the later one's being
the earlier one's plus `j - i` modulo `2 ^ 32`, and larger by exactly `j - i` when that sum does
not wrap around. -/
theorem graph_handles_counter (mGraphHandle handle : Nat) (graph : String)
    (args : List (Nat × String)) (i j : Nat) (a b : GraphType)
    (hg : mGraphHandle < 2 ^ 32)
    (ha : (constructGraphs mGraphHandle args)[i]? = some a)
    (hb : (constructGraphs mGraphHandle args)[j]? = some b)
    (hij : i < j) (hapart : j - i < 2 ^ 32) :
    ((GraphType.ctor mGraphHandle handle graph).1.getGraphHandle = mGraphHandle ∧
      (GraphType.ctor mGraphHandle handle graph).2 = (mGraphHandle + 1) % 2 ^ 32 ∧
      (GraphType.ctor mGraphHandle handle graph).1._state = graph_state.stop ∧
      (GraphType.ctor mGraphHandle handle graph).1._startTime = 0 ∧
      (GraphType.ctor mGraphHandle handle graph).1._name = "" ∧
      (GraphType.ctor mGraphHandle handle graph).1.getDeviceHandle = handle ∧
      (GraphType.ctor mGraphHandle handle graph).1.getGraphName = graph) ∧
    a.getGraphHandle ≠ b.getGraphHandle ∧
    b.getGraphHandle = (a.getGraphHandle + (j - i)) % 2 ^ 32 ∧
    (a.getGraphHandle + (j - i) < 2 ^ 32 → b.getGraphHandle = a.getGraphHandle + (j - i)) := by
  have h1 := constructGraphs_handle args mGraphHandle i a hg ha
  have h2 := constructGraphs_handle args mGraphHandle j b hg hb
  refine ⟨⟨rfl, rfl, rfl, rfl, rfl, rfl, rfl⟩, ?_, ?_, ?_⟩
  · omega
  · omega
  · intro _
    omega

/-- Witness for C11: three graphs constructed from counter value 4294967295 (the first and third
carry 4294967295 and 1) and from counter value 7 (the first and third carry 7 and 9). -/
theorem graph_handles_counter_witness :
    ((4294967295 : Nat) < 2 ^ 32 ∧ (0 : Nat) < 2 ∧ 2 - 0 < 2 ^ 32 ∧
      (GraphType.ctor 4294967295 0 "g0").1.getGraphHandle ≠ (GraphType.ctor 1 0 "g2").1.getGraphHandle ∧
      (GraphType.ctor 1 0 "g2").1.getGraphHandle
        = ((GraphType.ctor 4294967295 0 "g0").1.getGraphHandle + (2 - 0)) % 2 ^ 32) ∧
    ((GraphType.ctor 7 0 "g0").1.getGraphHandle + (2 - 0) < 2 ^ 32 ∧
      (GraphType.ctor 9 0 "g2").1.getGraphHandle
        = (GraphType.ctor 7 0 "g0").1.getGraphHandle + (2 - 0)) :=
  ⟨⟨by decide, by decide, by decide,
      (graph_handles_counter 4294967295 0 "g" [(0, "g0"), (0, "g1"), (0, "g2")] 0 2
        (GraphType.ctor 4294967295 0 "g0").1 (GraphType.ctor 1 0 "g2").1
        (by decide) rfl rfl (by decide) (by decide)).2.1,
      (graph_handles_counter 4294967295 0 "g" [(0, "g0"), (0, "g1"), (0, "g2")] 0 2
        (GraphType.ctor 4294967295 0 "g0").1 (GraphType.ctor 1 0 "g2").1
        (by decide) rfl rfl (by decide) (by decide)).2.2.1⟩,
    ⟨by decide,
      (graph_handles_counter 7 0 "g" [(0, "g0"), (0, "g1"), (0, "g2")] 0 2
        (GraphType.ctor 7 0 "g0").1 (GraphType.ctor 9 0 "g2").1
        (by decide) rfl rfl (by decide) (by decide)).2.2.2 (by decide)⟩⟩

/-- Counterexample to C11 as stated: with the counter at 4294967295 two graphs constructed one
right after the other carry the handles 4294967295 and 0; the later handle is not the earlier
one plus one, and is not larger. -/
theorem graph_handle_wraps :
    (4294967295 : Nat) < 2 ^ 32 ∧
    (constructGraphs 4294967295 [(0, "g0"), (0, "g1")]).map GraphType.getGraphHandle
      = [4294967295, 0] ∧
    ¬ ((GraphType.ctor (GraphType.ctor 4294967295 0 "g0").2 0 "g1").1.getGraphHandle
        = (GraphType.ctor 4294967295 0 "g0").1.getGraphHandle + 1) ∧
    ¬ ((GraphType.ctor 4294967295 0 "g0").1.getGraphHandle
        < (GraphType.ctor (GraphType.ctor 4294967295 0 "g0").2 0 "g1").1.getGraphHandle) := by
  refine ⟨by decide, by decide, by decide, by decide⟩

end xclswemuhal2
